import Mathlib

/-!
Verification development for the job-shop discrete-event simulation engine
(`src/services/simulationEngine.ts`).

Modelling conventions:
* JavaScript numbers are modelled as exact real numbers (`ℝ`); `Math.log` is
  `Real.log`, `Math.sqrt` is `Real.sqrt`, `Math.floor` on non-negative reals is
  `Nat.floor`.
* The mutable `Job` objects, aliased between the event queue and the stage wait
  queues, are modelled as an arena (`List Job`) addressed by index; events and
  wait queues carry indices.
* `Array.prototype.sort` (ES2019 and later) is a stable sort; `schedule` is
  therefore push-then-stable-sort, modelled with `List.mergeSort`.
* The `while` loop is modelled with explicit fuel; running out of fuel returns
  the state reached so far, and `loopDone` recognises the states in which the
  loop has exited through its own condition.
* JavaScript truthiness tests on optional numeric fields (`if (job.x)`) are
  modelled by `truthy`: the field is present and non-zero.
* Division by zero yields 0 in Lean (the source guards every division through
  `safeDiv` except `throughput`, where the divergence is unreachable for the
  positive durations the claims quantify over).
-/

set_option maxHeartbeats 1600000

namespace JobShop

/-! ### Deterministic random stream (source lines 4-27) -/

/-- Linear congruential generator step: `seed = (seed * 9301 + 49297) % 233280`. -/
def lcgNext (s : ℕ) : ℕ := (s * 9301 + 49297) % 233280

/-- Value returned by `next()`: the updated state divided by the modulus. -/
noncomputable def lcgUniform (s : ℕ) : ℝ := (lcgNext s : ℝ) / 233280

/-- Draw of `exponential(mean)`: value `-ln(1 - next()) * mean` and new state. -/
noncomputable def expDraw (mean : ℝ) (s : ℕ) : ℝ × ℕ :=
  (-(Real.log (1 - lcgUniform s)) * mean, lcgNext s)

/-- Index computed by `choice`: `Math.floor(next() * items.length)`, with new state. -/
noncomputable def choiceIdx (len : ℕ) (s : ℕ) : ℕ × ℕ :=
  (⌊lcgUniform s * (len : ℝ)⌋₊, lcgNext s)

/-! ### Data model (src/types.ts) -/

inductive ProductType where
  | typeA
  | typeB
  | typeC
  | typeD
deriving DecidableEq, Repr

/-- The fixed list passed to `random.choice` at an arrival (source line 130). -/
def productTypes : List ProductType :=
  [ProductType.typeA, ProductType.typeB, ProductType.typeC, ProductType.typeD]

structure SimulationConfig where
  duration : ℝ
  mouldingMachines : ℕ
  inspectionStations : ℕ
  packagingMachines : ℕ
  arrivalIntervalMean : ℝ
  degradationCostPerMinute : ℝ
  degradationThreshold : ℝ
  replications : ℤ
  seed : ℕ

structure Job where
  id : ℕ
  productType : ProductType
  arrivalTime : ℝ
  mouldingStartTime : Option ℝ := none
  mouldingEndTime : Option ℝ := none
  inspectionStartTime : Option ℝ := none
  inspectionEndTime : Option ℝ := none
  packagingStartTime : Option ℝ := none
  packagingEndTime : Option ℝ := none
  finished : Bool

/-- Discriminated event; finish events carry the arena index of their job. -/
inductive SimEvent where
  | arrival (time : ℝ)
  | mouldingFinish (time : ℝ) (jobIdx : ℕ)
  | inspectionFinish (time : ℝ) (jobIdx : ℕ)
  | packagingFinish (time : ℝ) (jobIdx : ℕ)

def SimEvent.time : SimEvent → ℝ
  | .arrival t => t
  | .mouldingFinish t _ => t
  | .inspectionFinish t _ => t
  | .packagingFinish t _ => t

def SimEvent.isArrival : SimEvent → Bool
  | .arrival _ => true
  | _ => false

def SimEvent.isFinish : SimEvent → Bool
  | .arrival _ => false
  | _ => true

def SimEvent.isPackagingFinish : SimEvent → Bool
  | .packagingFinish _ _ => true
  | _ => false

/-- JavaScript truthiness of an optional numeric field: present and non-zero. -/
def truthy (o : Option ℝ) : Prop := ∃ x, o = some x ∧ x ≠ 0

noncomputable instance : DecidablePred truthy := fun _ => Classical.propDecidable _

/-! ### Single-run simulator state (source lines 67-97) -/

structure SimState where
  rng : ℕ
  currentTime : ℝ
  queue : List SimEvent
  jobs : List Job
  mouldingFree : ℕ
  inspectionFree : ℕ
  packagingFree : ℕ
  mouldingQueue : List ℕ
  inspectionQueue : List ℕ
  packagingQueue : List ℕ
  totalMouldingBusyTime : ℝ
  totalInspectionBusyTime : ℝ
  totalPackagingBusyTime : ℝ
  lastEventTime : ℝ
  wipArea : ℝ
  currentWip : ℤ
  /-- Ghost instrumentation: the events processed so far, in order. -/
  trace : List SimEvent

/-- Scheduling an event: push then stable sort by timestamp (source lines 94-97). -/
noncomputable def schedule (e : SimEvent) (q : List SimEvent) : List SimEvent :=
  (q ++ [e]).mergeSort fun a b => decide (a.time ≤ b.time)

inductive Stage where
  | moulding
  | inspection
  | packaging

/-- Per-product base mean service time in minutes (source lines 101-107). -/
def baseMean : ProductType → ℝ
  | .typeA => 10
  | .typeB => 15
  | .typeC => 20
  | .typeD => 12

/-- Per-stage multiplier on the base mean (source lines 108-109). -/
def stageMult : Stage → ℝ
  | .moulding => 1
  | .inspection => 0.8
  | .packaging => 0.6

def defaultJob : Job :=
  { id := 0, productType := .typeA, arrivalTime := 0, finished := false }

/-- Read a job from the arena; the default is unreachable for in-range indices. -/
def jobAt (jobs : List Job) (i : ℕ) : Job := jobs.getD i defaultJob

/-- Update a job in place through the arena; out-of-range is a no-op. -/
def updateJob (jobs : List Job) (i : ℕ) (f : Job → Job) : List Job :=
  match jobs[i]? with
  | some j => jobs.set i (f j)
  | none => jobs

/-! ### Event handlers (source lines 125-207) -/

/-- Arrival processing (source lines 126-146). -/
noncomputable def handleArrival (cfg : SimulationConfig) (t : ℝ) (s : SimState) : SimState :=
  let s1 := { s with currentWip := s.currentWip + 1 }
  let cIdx := choiceIdx 4 s1.rng
  let pt := productTypes.getD cIdx.1 ProductType.typeA
  let job : Job := { id := s1.jobs.length + 1, productType := pt, arrivalTime := t,
                     finished := false }
  let jIdx := s1.jobs.length
  let s2 := { s1 with jobs := s1.jobs ++ [job], rng := cIdx.2 }
  let gap := expDraw cfg.arrivalIntervalMean s2.rng
  let nextArrival := t + gap.1
  let s3 := { s2 with rng := gap.2 }
  let s4 := if nextArrival < cfg.duration
            then { s3 with queue := schedule (.arrival nextArrival) s3.queue }
            else s3
  if 0 < s4.mouldingFree then
    let proc := expDraw (baseMean pt * stageMult .moulding) s4.rng
    { s4 with
        mouldingFree := s4.mouldingFree - 1,
        jobs := updateJob s4.jobs jIdx fun j => { j with mouldingStartTime := some t },
        rng := proc.2,
        queue := schedule (.mouldingFinish (t + proc.1) jIdx) s4.queue }
  else
    { s4 with mouldingQueue := s4.mouldingQueue ++ [jIdx] }

/-- Moulding-finish processing (source lines 148-168). -/
noncomputable def handleMouldingFinish (_cfg : SimulationConfig) (t : ℝ) (j : ℕ)
    (s : SimState) : SimState :=
  let s1 := { s with jobs := updateJob s.jobs j fun jb => { jb with mouldingEndTime := some t } }
  let mJob := jobAt s1.jobs j
  let s2 := if truthy mJob.mouldingStartTime
            then { s1 with totalMouldingBusyTime :=
                     s1.totalMouldingBusyTime + (t - mJob.mouldingStartTime.getD 0) }
            else s1
  let s3 := { s2 with mouldingFree := s2.mouldingFree + 1 }
  let s4 := match s3.mouldingQueue with
    | [] => s3
    | k :: rest =>
      let proc := expDraw (baseMean (jobAt s3.jobs k).productType * stageMult .moulding) s3.rng
      { s3 with
          mouldingFree := s3.mouldingFree - 1,
          mouldingQueue := rest,
          jobs := updateJob s3.jobs k fun jb => { jb with mouldingStartTime := some t },
          rng := proc.2,
          queue := schedule (.mouldingFinish (t + proc.1) k) s3.queue }
  if 0 < s4.inspectionFree then
    let proc := expDraw (baseMean mJob.productType * stageMult .inspection) s4.rng
    { s4 with
        inspectionFree := s4.inspectionFree - 1,
        jobs := updateJob s4.jobs j fun jb => { jb with inspectionStartTime := some t },
        rng := proc.2,
        queue := schedule (.inspectionFinish (t + proc.1) j) s4.queue }
  else
    { s4 with inspectionQueue := s4.inspectionQueue ++ [j] }

/-- Inspection-finish processing (source lines 170-190). -/
noncomputable def handleInspectionFinish (_cfg : SimulationConfig) (t : ℝ) (j : ℕ)
    (s : SimState) : SimState :=
  let s1 := { s with jobs := updateJob s.jobs j fun jb => { jb with inspectionEndTime := some t } }
  let iJob := jobAt s1.jobs j
  let s2 := if truthy iJob.inspectionStartTime
            then { s1 with totalInspectionBusyTime :=
                     s1.totalInspectionBusyTime + (t - iJob.inspectionStartTime.getD 0) }
            else s1
  let s3 := { s2 with inspectionFree := s2.inspectionFree + 1 }
  let s4 := match s3.inspectionQueue with
    | [] => s3
    | k :: rest =>
      let proc := expDraw (baseMean (jobAt s3.jobs k).productType * stageMult .inspection) s3.rng
      { s3 with
          inspectionFree := s3.inspectionFree - 1,
          inspectionQueue := rest,
          jobs := updateJob s3.jobs k fun jb => { jb with inspectionStartTime := some t },
          rng := proc.2,
          queue := schedule (.inspectionFinish (t + proc.1) k) s3.queue }
  if 0 < s4.packagingFree then
    let proc := expDraw (baseMean iJob.productType * stageMult .packaging) s4.rng
    { s4 with
        packagingFree := s4.packagingFree - 1,
        jobs := updateJob s4.jobs j fun jb => { jb with packagingStartTime := some t },
        rng := proc.2,
        queue := schedule (.packagingFinish (t + proc.1) j) s4.queue }
  else
    { s4 with packagingQueue := s4.packagingQueue ++ [j] }

/-- Packaging-finish processing (source lines 192-206). -/
noncomputable def handlePackagingFinish (_cfg : SimulationConfig) (t : ℝ) (j : ℕ)
    (s : SimState) : SimState :=
  let s1 := { s with currentWip := s.currentWip - 1 }
  let s2 := { s1 with jobs := updateJob s1.jobs j fun jb => { jb with packagingEndTime := some t } }
  let pJob := jobAt s2.jobs j
  let s3 := if truthy pJob.packagingStartTime
            then { s2 with totalPackagingBusyTime :=
                     s2.totalPackagingBusyTime + (t - pJob.packagingStartTime.getD 0) }
            else s2
  let s4 := { s3 with
                jobs := updateJob s3.jobs j fun jb => { jb with finished := true },
                packagingFree := s3.packagingFree + 1 }
  match s4.packagingQueue with
  | [] => s4
  | k :: rest =>
    let proc := expDraw (baseMean (jobAt s4.jobs k).productType * stageMult .packaging) s4.rng
    { s4 with
        packagingFree := s4.packagingFree - 1,
        packagingQueue := rest,
        jobs := updateJob s4.jobs k fun jb => { jb with packagingStartTime := some t },
        rng := proc.2,
        queue := schedule (.packagingFinish (t + proc.1) k) s4.queue }

/-- Common prefix of every loop iteration (source lines 117-123): accumulate the
WIP area with the pre-transition WIP, then advance the clock and dispatch. -/
noncomputable def processEvent (cfg : SimulationConfig) (e : SimEvent) (s : SimState) :
    SimState :=
  let s0 := { s with
    wipArea := s.wipArea + (s.currentWip : ℝ) * (e.time - s.lastEventTime),
    lastEventTime := e.time,
    currentTime := e.time,
    trace := s.trace ++ [e] }
  match e with
  | .arrival t => handleArrival cfg t s0
  | .mouldingFinish t j => handleMouldingFinish cfg t j s0
  | .inspectionFinish t j => handleInspectionFinish cfg t j s0
  | .packagingFinish t j => handlePackagingFinish cfg t j s0

/-- The event loop `while (queue.length > 0 && currentTime < duration)`
(source line 116), with explicit fuel. -/
noncomputable def runLoop (cfg : SimulationConfig) : ℕ → SimState → SimState
  | 0, s => s
  | fuel + 1, s =>
    match s.queue with
    | [] => s
    | e :: rest =>
      if s.currentTime < cfg.duration then
        runLoop cfg fuel (processEvent cfg e { s with queue := rest })
      else s

/-- Initial state: fresh RNG from the seed and the first arrival scheduled
(source lines 67-114). -/
noncomputable def initState (cfg : SimulationConfig) : SimState :=
  let a1 := expDraw cfg.arrivalIntervalMean cfg.seed
  { rng := a1.2,
    currentTime := 0,
    queue := schedule (.arrival a1.1) [],
    jobs := [],
    mouldingFree := cfg.mouldingMachines,
    inspectionFree := cfg.inspectionStations,
    packagingFree := cfg.packagingMachines,
    mouldingQueue := [],
    inspectionQueue := [],
    packagingQueue := [],
    totalMouldingBusyTime := 0,
    totalInspectionBusyTime := 0,
    totalPackagingBusyTime := 0,
    lastEventTime := 0,
    wipArea := 0,
    currentWip := 0,
    trace := [] }

noncomputable def finalState (cfg : SimulationConfig) (fuel : ℕ) : SimState :=
  runLoop cfg fuel (initState cfg)

/-- The loop has exited through its own condition (not by fuel exhaustion). -/
def loopDone (cfg : SimulationConfig) (s : SimState) : Prop :=
  s.queue = [] ∨ ¬s.currentTime < cfg.duration

/-! ### Run statistics calculator (source lines 210-271) -/

structure WaitStats where
  avg : ℝ
  p90 : ℝ
  max : ℝ

structure ConfidenceInterval where
  mean : ℝ
  lower : ℝ
  upper : ℝ

structure StageVals where
  moulding : ℝ
  inspection : ℝ
  packaging : ℝ

structure StageWaitLists where
  moulding : List ℝ
  inspection : List ℝ
  packaging : List ℝ

structure StageWaitStats where
  moulding : WaitStats
  inspection : WaitStats
  packaging : WaitStats

structure SimulationStats where
  totalJobs : ℕ
  completedJobs : ℕ
  throughput : ℝ
  avgWip : ℝ
  serviceLevel : ℝ
  avgLeadTime : ℝ
  leadTimeCI : ConfidenceInterval
  totalDegradationCost : ℝ
  avgDegradationCostPerPart : ℝ
  costCI : ConfidenceInterval
  waitTimes : StageWaitLists
  waitStats : StageWaitStats
  machineUtilization : StageVals

/-- Division guarded to return 0 on a zero denominator (source line 231). -/
noncomputable def safeDiv (n d : ℝ) : ℝ := if d = 0 then 0 else n / d

/-- Wait before moulding, pushed when `job.mouldingStartTime` is truthy
(source line 219). -/
noncomputable def waitMould (j : Job) : Option ℝ :=
  if truthy j.mouldingStartTime then some (j.mouldingStartTime.getD 0 - j.arrivalTime) else none

/-- Wait before inspection, pushed when `job.inspectionStartTime` and
`job.mouldingEndTime` are truthy (source lines 220-222). -/
noncomputable def waitInsp (j : Job) : Option ℝ :=
  if truthy j.inspectionStartTime ∧ truthy j.mouldingEndTime
  then some (j.inspectionStartTime.getD 0 - j.mouldingEndTime.getD 0) else none

/-- Wait before packaging (source line 227). -/
noncomputable def waitPack (j : Job) : Option ℝ :=
  if truthy j.packagingStartTime ∧ truthy j.inspectionEndTime
  then some (j.packagingStartTime.getD 0 - j.inspectionEndTime.getD 0) else none

/-- Degradation cost contributed by one job (source lines 224-225). -/
noncomputable def degradationOf (cfg : SimulationConfig) (j : Job) : ℝ :=
  match waitInsp j with
  | some w => max 0 (w - cfg.degradationThreshold) * cfg.degradationCostPerMinute
  | none => 0

/-- Lead time contributed by one job (source line 228). -/
noncomputable def leadTimeOf (j : Job) : ℝ :=
  if j.finished = true ∧ truthy j.packagingEndTime
  then j.packagingEndTime.getD 0 - j.arrivalTime else 0

/-- WaitStats computation (source lines 241-251). -/
noncomputable def calcStats (arr : List ℝ) : WaitStats :=
  if arr.length = 0 then { avg := 0, p90 := 0, max := 0 }
  else
    let sorted := arr.mergeSort fun a b => decide (a ≤ b)
    { avg := arr.sum / (arr.length : ℝ),
      p90 := sorted.getD ⌊(arr.length : ℝ) * (9 / 10)⌋₊ 0,
      max := sorted.getD (arr.length - 1) 0 }

/-- Single-run statistics from the final state (source lines 210-271). -/
noncomputable def computeStats (cfg : SimulationConfig) (s : SimState) : SimulationStats :=
  let jobs := s.jobs
  let completed := jobs.filter fun j => j.finished
  let waitsM := jobs.filterMap waitMould
  let waitsI := jobs.filterMap waitInsp
  let waitsP := jobs.filterMap waitPack
  let totalLeadTime := (jobs.map leadTimeOf).sum
  let totalDegradation := (jobs.map (degradationOf cfg)).sum
  let avgLead := safeDiv totalLeadTime (completed.length : ℝ)
  let avgCost := safeDiv totalDegradation (jobs.length : ℝ)
  let goodServiceCount := (waitsI.filter fun w => decide (w < 5)).length
  { totalJobs := jobs.length,
    completedJobs := completed.length,
    throughput := (completed.length : ℝ) / (cfg.duration / 60),
    avgWip := safeDiv s.wipArea cfg.duration,
    serviceLevel := safeDiv (goodServiceCount : ℝ) (waitsI.length : ℝ),
    avgLeadTime := avgLead,
    leadTimeCI := { mean := avgLead, lower := avgLead, upper := avgLead },
    totalDegradationCost := totalDegradation,
    avgDegradationCostPerPart := avgCost,
    costCI := { mean := avgCost, lower := avgCost, upper := avgCost },
    waitTimes := { moulding := waitsM, inspection := waitsI, packaging := waitsP },
    waitStats := { moulding := calcStats waitsM, inspection := calcStats waitsI,
                   packaging := calcStats waitsP },
    machineUtilization :=
      { moulding := safeDiv s.totalMouldingBusyTime (cfg.duration * (cfg.mouldingMachines : ℝ)),
        inspection :=
          safeDiv s.totalInspectionBusyTime (cfg.duration * (cfg.inspectionStations : ℝ)),
        packaging :=
          safeDiv s.totalPackagingBusyTime (cfg.duration * (cfg.packagingMachines : ℝ)) } }

/-- One full single run (source `runSingleSimulation`). -/
noncomputable def runSingleSimulation (cfg : SimulationConfig) (fuel : ℕ) : SimulationStats :=
  computeStats cfg (finalState cfg fuel)

/-! ### Replication aggregator (source lines 51-65 and 274-338) -/

/-- A 95 percent confidence interval across replications (source lines 286-293). -/
noncomputable def calcCI (vals : List ℝ) : ConfidenceInterval :=
  let count := vals.length
  let mean := vals.sum / (count : ℝ)
  let den : ℝ := if count - 1 = 0 then 1 else ((count - 1 : ℕ) : ℝ)
  let variance := (vals.map fun v => (v - mean) ^ 2).sum / den
  let stdDev := Real.sqrt variance
  let margin := 1.96 * (stdDev / Real.sqrt (count : ℝ))
  { mean := mean, lower := mean - margin, upper := mean + margin }

/-- Maximum of a list, as `Math.max(...values)` on a non-empty spread. -/
def maxOfList (l : List ℝ) : ℝ :=
  match l with
  | [] => 0
  | v :: vs => vs.foldl max v

/-- Aggregation across replications (source `aggregateResults`): a single run is
returned verbatim, otherwise cross-run means and confidence intervals. -/
noncomputable def aggregateResults (runs : List SimulationStats) : SimulationStats :=
  match runs with
  | [r] => r
  | _ =>
    let count := runs.length
    let avgOf : (SimulationStats → ℝ) → ℝ := fun f => (runs.map f).sum / (count : ℝ)
    { totalJobs := ⌊avgOf (fun r => (r.totalJobs : ℝ)) + 1 / 2⌋₊,
      completedJobs := ⌊avgOf (fun r => (r.completedJobs : ℝ)) + 1 / 2⌋₊,
      throughput := avgOf fun r => r.throughput,
      avgWip := avgOf fun r => r.avgWip,
      serviceLevel := avgOf fun r => r.serviceLevel,
      avgLeadTime := avgOf fun r => r.avgLeadTime,
      leadTimeCI := calcCI (runs.map fun r => r.avgLeadTime),
      totalDegradationCost := avgOf fun r => r.totalDegradationCost,
      avgDegradationCostPerPart := avgOf fun r => r.avgDegradationCostPerPart,
      costCI := calcCI (runs.map fun r => r.avgDegradationCostPerPart),
      waitTimes :=
        { moulding := (runs.map fun r => r.waitTimes.moulding).flatten,
          inspection := (runs.map fun r => r.waitTimes.inspection).flatten,
          packaging := (runs.map fun r => r.waitTimes.packaging).flatten },
      waitStats :=
        { moulding :=
            { avg := avgOf fun r => r.waitStats.moulding.avg,
              p90 := avgOf fun r => r.waitStats.moulding.p90,
              max := maxOfList (runs.map fun r => r.waitStats.moulding.max) },
          inspection :=
            { avg := avgOf fun r => r.waitStats.inspection.avg,
              p90 := avgOf fun r => r.waitStats.inspection.p90,
              max := maxOfList (runs.map fun r => r.waitStats.inspection.max) },
          packaging :=
            { avg := avgOf fun r => r.waitStats.packaging.avg,
              p90 := avgOf fun r => r.waitStats.packaging.p90,
              max := maxOfList (runs.map fun r => r.waitStats.packaging.max) } },
      machineUtilization :=
        { moulding := avgOf fun r => r.machineUtilization.moulding,
          inspection := avgOf fun r => r.machineUtilization.inspection,
          packaging := avgOf fun r => r.machineUtilization.packaging } }

/-- The per-replication statistics list: replication `i` runs with seed
`baseSeed + i` (source lines 52-62). -/
noncomputable def replicationResults (cfg : SimulationConfig) (fuel : ℕ) :
    List SimulationStats :=
  (List.range (max 1 cfg.replications).toNat).map fun i =>
    runSingleSimulation { cfg with seed := cfg.seed + i } fuel

/-- Main entry point `run` (source lines 51-65). -/
noncomputable def run (cfg : SimulationConfig) (fuel : ℕ) : SimulationStats :=
  aggregateResults (replicationResults cfg fuel)

/-! ### Derived definitions used by the verification -/

/-- The timestamp comparison used by `schedule`, as a Boolean relation. -/
noncomputable def timeLE (a b : SimEvent) : Bool := decide (a.time ≤ b.time)

/-- Insertion of an event after every pending event with an equal or earlier
timestamp: the position a stable sort gives to a newly pushed event. -/
noncomputable def insertByTime (e : SimEvent) : List SimEvent → List SimEvent
  | [] => [e]
  | x :: q => if x.time ≤ e.time then x :: insertByTime e q else e :: x :: q

/-- The queue obtained by scheduling a list of events, in order, into an empty
scheduler. -/
noncomputable def buildQueue (es : List SimEvent) : List SimEvent :=
  es.foldl (fun q e => schedule e q) []

/-- Change of the instantaneous WIP caused by one processed event: +1 on Arrival,
-1 on PackagingFinish, 0 otherwise. -/
def wipDelta : SimEvent → ℤ
  | .arrival _ => 1
  | .packagingFinish _ _ => -1
  | _ => 0

/-- Instantaneous WIP after a processed-event trace: arrivals minus packaging
finishes. -/
def wipOf (tr : List SimEvent) : ℤ := (tr.map wipDelta).sum

/-- Area under the WIP step curve of a trace, starting from clock `prev` and
WIP `wip`: each event contributes the pre-transition WIP times the elapsed time. -/
noncomputable def traceAreaAux (prev : ℝ) (wip : ℤ) : List SimEvent → ℝ
  | [] => 0
  | e :: tr => (wip : ℝ) * (e.time - prev) + traceAreaAux e.time (wip + wipDelta e) tr

/-- Area under the WIP step curve of a full trace from time 0 and WIP 0. -/
noncomputable def traceArea (tr : List SimEvent) : ℝ := traceAreaAux 0 0 tr

/-- Timestamp of the last processed event of a trace (0 for the empty trace). -/
noncomputable def traceLast (tr : List SimEvent) : ℝ :=
  (tr.getLast?.map SimEvent.time).getD 0

/-- Number of jobs currently inside the system as recorded by the simulator
state: pending finish events plus jobs waiting in the three stage queues. -/
def pendingCount (s : SimState) : ℕ :=
  s.queue.countP (fun e => e.isFinish) + s.mouldingQueue.length +
    s.inspectionQueue.length + s.packagingQueue.length

/-- Modelled from the wording of the specification, for comparison only: the
integral of the instantaneous WIP step curve over `[0, d]`, where WIP changes by
`wipDelta` at each event of the trace and the curve extends to the whole
interval `[0, d]`. -/
noncomputable def specWipIntegralAux (d prev : ℝ) (wip : ℤ) : List SimEvent → ℝ
  | [] => (wip : ℝ) * (d - min prev d)
  | e :: tr => (wip : ℝ) * (min e.time d - min prev d) +
      specWipIntegralAux d e.time (wip + wipDelta e) tr

/-- Integral over `[0, duration]` of the instantaneous WIP of a trace, following
the wording of the specification. -/
noncomputable def specWipIntegral (d : ℝ) (tr : List SimEvent) : ℝ :=
  specWipIntegralAux d 0 0 tr

/-- The degradation cost as worded by the claim: summed over exactly the jobs
whose inspection start timestamp is set. -/
noncomputable def claimDegradationSum (cfg : SimulationConfig) (jobs : List Job) : ℝ :=
  (jobs.map fun j =>
    match j.inspectionStartTime with
    | some st =>
        max 0 ((st - j.mouldingEndTime.getD 0) - cfg.degradationThreshold) *
          cfg.degradationCostPerMinute
    | none => 0).sum

/-- Value of the factor `-ln(1 - a / 233280)` for an LCG state `a`. -/
noncomputable def lnf (a : ℕ) : ℝ := -Real.log (1 - (a : ℝ) / 233280)

/-- Time of the first arrival in a seed-0 run with arrival mean 5. -/
noncomputable def A1 : ℝ := lnf 49297 * 5

/-- Moulding processing time of the first job (product type C, base mean 20) in a
seed-0 run. -/
noncomputable def P1 : ℝ := lnf 172348 * 20

/-- State of a seed-0, mean-5 run right after initialisation. -/
noncomputable def I0 (cfg : SimulationConfig) : SimState :=
  { rng := 49297, currentTime := 0, queue := [SimEvent.arrival A1], jobs := [],
    mouldingFree := cfg.mouldingMachines, inspectionFree := cfg.inspectionStations,
    packagingFree := cfg.packagingMachines, mouldingQueue := [], inspectionQueue := [],
    packagingQueue := [], totalMouldingBusyTime := 0, totalInspectionBusyTime := 0,
    totalPackagingBusyTime := 0, lastEventTime := 0, wipArea := 0, currentWip := 0,
    trace := [] }

/-- The first job of a seed-0 run, dispatched into moulding on arrival. -/
noncomputable def job1 : Job :=
  { id := 1, productType := ProductType.typeC, arrivalTime := A1,
    mouldingStartTime := some A1, finished := false }

/-- The first job of a seed-0 run when no moulding machine exists. -/
noncomputable def job1q : Job :=
  { id := 1, productType := ProductType.typeC, arrivalTime := A1, finished := false }

/-- State after the first arrival of a seed-0, mean-5 run with one machine per
stage and no second arrival within the duration. -/
noncomputable def S1 : SimState :=
  { rng := 172348, currentTime := A1,
    queue := [SimEvent.mouldingFinish (A1 + P1) 0], jobs := [job1],
    mouldingFree := 0, inspectionFree := 1, packagingFree := 1,
    mouldingQueue := [], inspectionQueue := [], packagingQueue := [],
    totalMouldingBusyTime := 0, totalInspectionBusyTime := 0,
    totalPackagingBusyTime := 0, lastEventTime := A1, wipArea := 0, currentWip := 1,
    trace := [SimEvent.arrival A1] }

/-- State after the first arrival of a seed-0, mean-5 run with no moulding
machines and no second arrival within the duration: the job waits forever. -/
noncomputable def S1q (cfg : SimulationConfig) : SimState :=
  { rng := 127551, currentTime := A1, queue := [], jobs := [job1q],
    mouldingFree := 0, inspectionFree := cfg.inspectionStations,
    packagingFree := cfg.packagingMachines,
    mouldingQueue := [0], inspectionQueue := [], packagingQueue := [],
    totalMouldingBusyTime := 0, totalInspectionBusyTime := 0,
    totalPackagingBusyTime := 0, lastEventTime := A1, wipArea := 0, currentWip := 1,
    trace := [SimEvent.arrival A1] }

/-- The first job of a seed-0 run after finishing moulding and entering
inspection at time `A1 + P1`. -/
noncomputable def job1insp : Job :=
  { job1 with mouldingEndTime := some (A1 + P1), inspectionStartTime := some (A1 + P1) }

/-- State after the moulding finish of the first job in the one-machine seed-0
run: the moulding busy time already exceeds any small duration. -/
noncomputable def S2 : SimState :=
  { rng := 191165, currentTime := A1 + P1,
    queue := [SimEvent.inspectionFinish (A1 + P1 + lnf 191165 * (20 * 0.8)) 0],
    jobs := [job1insp],
    mouldingFree := 1, inspectionFree := 0, packagingFree := 1,
    mouldingQueue := [], inspectionQueue := [], packagingQueue := [],
    totalMouldingBusyTime := P1, totalInspectionBusyTime := 0,
    totalPackagingBusyTime := 0, lastEventTime := A1 + P1, wipArea := P1,
    currentWip := 1, trace := [SimEvent.arrival A1, SimEvent.mouldingFinish (A1 + P1) 0] }

/-- Invariant of the event loop used for the boundary claims: the clock equals the
timestamp of the last processed event, and every processed event except possibly
the last one was strictly before the configured duration. -/
structure InvTrace (cfg : SimulationConfig) (s : SimState) : Prop where
  ct_last : s.currentTime = traceLast s.trace
  let_last : s.lastEventTime = traceLast s.trace
  trace_lt : ∀ e ∈ s.trace.dropLast, e.time < cfg.duration

/-- Invariant of the event loop used for the WIP claims: the accumulated area and
WIP counter agree with the trace-derived step curve, the WIP counter counts the
jobs recorded inside the system, and every prefix of the trace has non-negative
WIP. -/
structure InvWip (s : SimState) : Prop where
  let_last : s.lastEventTime = traceLast s.trace
  area : s.wipArea = traceArea s.trace
  wip_trace : s.currentWip = wipOf s.trace
  wip_pending : s.currentWip = (pendingCount s : ℤ)
  wip_prefix : ∀ k : ℕ, 0 ≤ wipOf (s.trace.take k)

/-- Relation between a lower time bound, a pending-event queue, and the job
arena: the queue is sorted, finish events do not lie before the bound, and
recorded stage-start stamps never exceed the timestamp of a matching pending
finish event. -/
structure QueueOk (t : ℝ) (q : List SimEvent) (jobs : List Job) : Prop where
  sortedq : q.Pairwise fun a b => timeLE a b = true
  future : ∀ x ∈ q, x.isFinish = true → t ≤ x.time
  mf_st : ∀ t1 j, SimEvent.mouldingFinish t1 j ∈ q →
    ∀ st, (jobAt jobs j).mouldingStartTime = some st → st ≤ t1
  if_st : ∀ t1 j, SimEvent.inspectionFinish t1 j ∈ q →
    ∀ st, (jobAt jobs j).inspectionStartTime = some st → st ≤ t1
  pf_st : ∀ t1 j, SimEvent.packagingFinish t1 j ∈ q →
    ∀ st, (jobAt jobs j).packagingStartTime = some st → st ≤ t1

/-- Invariant of the event loop used for the utilization claim: the queue, clock
and arena satisfy `QueueOk` and the busy-time accumulators are non-negative. -/
structure InvBusy (s : SimState) : Prop where
  qok : QueueOk s.currentTime s.queue s.jobs
  busyM : 0 ≤ s.totalMouldingBusyTime
  busyI : 0 ≤ s.totalInspectionBusyTime
  busyP : 0 ≤ s.totalPackagingBusyTime

/-- Stage-discipline invariant used for the degradation claim: jobs waiting for
inspection have finished moulding, and a set inspection start implies a set
moulding end. -/
structure InvStage (s : SimState) : Prop where
  dq_mend : ∀ k ∈ s.inspectionQueue, ((jobAt s.jobs k).mouldingEndTime).isSome = true
  insp_mend : ∀ j : ℕ, ((jobAt s.jobs j).inspectionStartTime).isSome = true →
    ((jobAt s.jobs j).mouldingEndTime).isSome = true

/-- Positivity invariant (runs with a positive arrival mean whose first pending
events are at positive times): all pending events and all set moulding-end and
inspection-start stamps are strictly positive. -/
structure InvPos (s : SimState) : Prop where
  ct : 0 ≤ s.currentTime
  qpos : ∀ e ∈ s.queue, 0 < e.time
  mend_pos : ∀ j : ℕ, ∀ x, (jobAt s.jobs j).mouldingEndTime = some x → 0 < x
  insp_pos : ∀ j : ℕ, ∀ x, (jobAt s.jobs j).inspectionStartTime = some x → 0 < x

/-- Divergence invariant for non-positive arrival means and positive durations:
the clock stays at or below zero and an arrival at or before time zero is always
pending, so the loop never terminates on its own. -/
structure InvDiv (s : SimState) : Prop where
  sortedq : s.queue.Pairwise fun a b => timeLE a b = true
  ct : s.currentTime ≤ 0
  arr : ∃ t, SimEvent.arrival t ∈ s.queue ∧ t ≤ 0

/-- Invariant for the degradation claim in runs with a positive arrival mean:
pending events are at strictly positive times, pending moulding-finish events
and the moulding wait queue point into the arena, jobs waiting for inspection
have a positive moulding-end stamp, and every set inspection-start stamp is
positive and is backed by a positive moulding-end stamp. -/
structure InvC6 (s : SimState) : Prop where
  qpos : ∀ e ∈ s.queue, 0 < e.time
  qidx : ∀ t1 k, SimEvent.mouldingFinish t1 k ∈ s.queue → k < s.jobs.length
  mq_idx : ∀ k ∈ s.mouldingQueue, k < s.jobs.length
  iq_mend : ∀ k ∈ s.inspectionQueue,
    ∃ y, (jobAt s.jobs k).mouldingEndTime = some y ∧ 0 < y
  insp_good : ∀ m x, (jobAt s.jobs m).inspectionStartTime = some x →
    0 < x ∧ ∃ y, (jobAt s.jobs m).mouldingEndTime = some y ∧ 0 < y

/-- Concrete configuration used by witnesses (the default scenario of the app). -/
noncomputable def cfgA : SimulationConfig :=
  { duration := 480, mouldingMachines := 2, inspectionStations := 2, packagingMachines := 1,
    arrivalIntervalMean := 5, degradationCostPerMinute := 2.5, degradationThreshold := 0,
    replications := 1, seed := 42 }

noncomputable def cfgB : SimulationConfig := { cfgA with replications := 2 }

noncomputable def cfgC : SimulationConfig := { cfgA with replications := -2 }

/-- Counterexample configuration for the duration-boundary claim: a tiny duration
with the default arrival mean, one machine per stage, seed 0. -/
noncomputable def cfg1 : SimulationConfig :=
  { duration := 1 / 10000, mouldingMachines := 1, inspectionStations := 1,
    packagingMachines := 1, arrivalIntervalMean := 5, degradationCostPerMinute := 1,
    degradationThreshold := 0, replications := 1, seed := 0 }

/-- Counterexample configuration for the WIP-integral claim: no moulding machines,
duration 2, seed 0 — exactly one arrival is processed and it stays in the system. -/
noncomputable def cfg2 : SimulationConfig :=
  { duration := 2, mouldingMachines := 0, inspectionStations := 1, packagingMachines := 1,
    arrivalIntervalMean := 5, degradationCostPerMinute := 1, degradationThreshold := 0,
    replications := 1, seed := 0 }

/-- Counterexample configuration for the utilization claim: duration 2, one machine
per stage, seed 0 — the single moulding job keeps its machine busy far beyond the
duration and the finish event is still processed. -/
noncomputable def cfg3 : SimulationConfig :=
  { duration := 2, mouldingMachines := 1, inspectionStations := 1, packagingMachines := 1,
    arrivalIntervalMean := 5, degradationCostPerMinute := 1, degradationThreshold := 0,
    replications := 1, seed := 0 }

/-- Witness configuration for the degradation claim: duration 0 makes the loop
exit immediately, so the run is trivially complete. -/
noncomputable def cfg6 : SimulationConfig :=
  { duration := 0, mouldingMachines := 1, inspectionStations := 1, packagingMachines := 1,
    arrivalIntervalMean := 5, degradationCostPerMinute := 1, degradationThreshold := 0,
    replications := 1, seed := 0 }

/-! ### Basic facts about the random stream -/

theorem lcgNext_lt (s : ℕ) : lcgNext s < 233280 :=
  Nat.mod_lt _ (by norm_num)

theorem lcgUniform_nonneg (s : ℕ) : 0 ≤ lcgUniform s := by
  unfold lcgUniform
  positivity

theorem lcgUniform_lt_one (s : ℕ) : lcgUniform s < 1 := by
  unfold lcgUniform
  rw [div_lt_one (by norm_num)]
  exact_mod_cast lcgNext_lt s

theorem lcgUniform_pos (s : ℕ) (h : lcgNext s ≠ 0) : 0 < lcgUniform s := by
  unfold lcgUniform
  have : (0 : ℝ) < (lcgNext s : ℝ) := by exact_mod_cast Nat.pos_of_ne_zero h
  positivity

/-- A uniform value strictly below one keeps `1 - u` positive, so the log is defined. -/
theorem one_sub_lcgUniform_pos (s : ℕ) : 0 < 1 - lcgUniform s := by
  linarith [lcgUniform_lt_one s]

/-- The factor `-ln(1 - u)` of every exponential draw is non-negative. -/
theorem expDraw_factor_nonneg (s : ℕ) : 0 ≤ -Real.log (1 - lcgUniform s) := by
  have h1 : 1 - lcgUniform s ≤ 1 := by linarith [lcgUniform_nonneg s]
  have := Real.log_nonpos (by linarith [one_sub_lcgUniform_pos s]) h1
  linarith

/-- Exponential draws with a non-negative mean are non-negative. -/
theorem expDraw_nonneg (mean : ℝ) (hm : 0 ≤ mean) (s : ℕ) : 0 ≤ (expDraw mean s).1 :=
  mul_nonneg (expDraw_factor_nonneg s) hm

theorem choiceIdx_lt (len s : ℕ) (h : 0 < len) : (choiceIdx len s).1 < len := by
  unfold choiceIdx
  have h0 : 0 ≤ lcgUniform s * (len : ℝ) :=
    mul_nonneg (lcgUniform_nonneg s) (by positivity)
  refine (Nat.floor_lt h0).mpr ?_
  calc lcgUniform s * (len : ℝ) < 1 * (len : ℝ) := by
        exact mul_lt_mul_of_pos_right (lcgUniform_lt_one s) (by exact_mod_cast h)
    _ = (len : ℝ) := one_mul _

/-! ### The scheduler: push-then-stable-sort is insertion after ties -/

theorem schedule_def (e : SimEvent) (q : List SimEvent) :
    schedule e q = (q ++ [e]).mergeSort timeLE := rfl

theorem timeLE_trans (a b c : SimEvent) : timeLE a b → timeLE b c → timeLE a c := by
  simp only [timeLE, decide_eq_true_iff]
  exact le_trans

theorem timeLE_total (a b : SimEvent) : timeLE a b || timeLE b a := by
  simp only [timeLE, Bool.or_eq_true, decide_eq_true_iff]
  exact le_total a.time b.time

theorem insertByTime_perm (e : SimEvent) (q : List SimEvent) :
    List.Perm (insertByTime e q) (e :: q) := by
  induction q with
  | nil => rfl
  | cons x q ih =>
    unfold insertByTime
    by_cases h : x.time ≤ e.time
    · rw [if_pos h]
      exact (ih.cons x).trans (List.Perm.swap e x q)
    · rw [if_neg h]

theorem mem_insertByTime (x e : SimEvent) (q : List SimEvent) :
    x ∈ insertByTime e q ↔ x = e ∨ x ∈ q := by
  rw [(insertByTime_perm e q).mem_iff, List.mem_cons]

theorem sorted_insertByTime (e : SimEvent) (q : List SimEvent)
    (hq : q.Pairwise fun a b => timeLE a b = true) :
    (insertByTime e q).Pairwise fun a b => timeLE a b = true := by
  induction q with
  | nil =>
    simp [insertByTime]
  | cons x q ih =>
    rw [List.pairwise_cons] at hq
    obtain ⟨hx, hq'⟩ := hq
    unfold insertByTime
    by_cases h : x.time ≤ e.time
    · rw [if_pos h]
      rw [List.pairwise_cons]
      refine ⟨?_, ih hq'⟩
      intro b hb
      rcases (mem_insertByTime b e q).mp hb with hbe | hbq
      · subst hbe
        simpa [timeLE, decide_eq_true_iff] using h
      · exact hx b hbq
    · rw [if_neg h]
      have hex : e.time ≤ x.time := le_of_not_le h
      rw [List.pairwise_cons]
      constructor
      · intro b hb
        rcases List.mem_cons.mp hb with hbx | hbq
        · subst hbx
          simpa [timeLE, decide_eq_true_iff] using hex
        · have hxb : timeLE x b = true := hx b hbq
          simp only [timeLE, decide_eq_true_iff] at hxb ⊢
          exact le_trans hex hxb
      · rw [List.pairwise_cons]
        exact ⟨hx, hq'⟩

theorem schedule_eq_insertByTime (e : SimEvent) (q : List SimEvent)
    (hq : q.Pairwise fun a b => timeLE a b = true) :
    schedule e q = insertByTime e q := by
  induction q with
  | nil =>
    rw [schedule_def]
    simp [insertByTime]
  | cons x q ih =>
    rw [List.pairwise_cons] at hq
    obtain ⟨hx, hq'⟩ := hq
    rw [schedule_def, List.cons_append]
    by_cases hxe : x.time ≤ e.time
    · obtain ⟨l₁, l₂, hm, hm2, hl₁⟩ :=
        List.mergeSort_cons timeLE_trans timeLE_total x (q ++ [e])
      have hl₁nil : l₁ = [] := by
        rw [List.eq_nil_iff_forall_not_mem]
        intro b hb
        have hble : timeLE x b = true := by
          have hbm : b ∈ List.mergeSort (q ++ [e]) timeLE := by
            rw [hm2]
            exact List.mem_append_left _ hb
          rw [List.mem_mergeSort] at hbm
          rcases List.mem_append.mp hbm with hbq | hbe
          · exact hx b hbq
          · rw [List.mem_singleton] at hbe
            subst hbe
            simpa [timeLE, decide_eq_true_iff] using hxe
        have := hl₁ b hb
        simp [hble] at this
      subst hl₁nil
      rw [List.nil_append] at hm hm2
      rw [schedule_def] at ih
      have hins : insertByTime e (x :: q) = x :: insertByTime e q := by
        simp only [insertByTime]
        rw [if_pos hxe]
      rw [hins, hm, ← ih hq', hm2]
    · have hex : e.time < x.time := lt_of_not_le hxe
      have hsor := List.sorted_mergeSort timeLE_trans timeLE_total ((x :: q) ++ [e])
      have hperm := List.mergeSort_perm ((x :: q) ++ [e]) timeLE
      have hsub : List.Sublist (x :: q) (List.mergeSort ((x :: q) ++ [e]) timeLE) := by
        refine List.sublist_mergeSort timeLE_trans timeLE_total ?_ ?_
        · rw [List.pairwise_cons]
          exact ⟨hx, hq'⟩
        · exact List.sublist_append_left _ _
      rw [List.cons_append] at hsor hperm hsub
      cases hM : List.mergeSort (x :: (q ++ [e])) timeLE with
      | nil =>
        rw [hM] at hperm
        exact absurd hperm.symm (by simp)
      | cons a M =>
        rw [hM] at hsor hperm hsub
        have hae : a = e := by
          by_contra hne
          have ham : a ∈ x :: (q ++ [e]) := hperm.mem_iff.mp (List.mem_cons_self a M)
          have haq : a ∈ x :: q := by
            rcases List.mem_cons.mp ham with h1 | h1
            · exact List.mem_cons.mpr (Or.inl h1)
            · rcases List.mem_append.mp h1 with h2 | h2
              · exact List.mem_cons.mpr (Or.inr h2)
              · rw [List.mem_singleton] at h2
                exact absurd h2 hne
          have hxa : x.time ≤ a.time := by
            rcases List.mem_cons.mp haq with h1 | h1
            · rw [h1]
            · have := hx a h1
              simpa [timeLE, decide_eq_true_iff] using this
          have hem : e ∈ a :: M := hperm.mem_iff.mpr (by simp)
          rcases List.mem_cons.mp hem with h1 | h1
          · exact hne h1.symm
          · have := (List.pairwise_cons.mp hsor).1 e h1
            simp only [timeLE, decide_eq_true_iff] at this
            linarith
        rw [hae] at hperm hsub
        have hMperm : List.Perm M (x :: q) := by
          have h1 : List.Perm (x :: (q ++ [e])) (e :: (x :: q)) := by
            rw [← List.cons_append]
            exact List.perm_append_singleton e (x :: q)
          exact (hperm.trans h1).cons_inv
        have hMsub : List.Sublist (x :: q) M := by
          rcases List.sublist_cons_iff.mp hsub with h1 | ⟨r, hr, hrs⟩
          · exact h1
          · exfalso
            have hxeq : x = e := by
              injection hr with h1 h2
            rw [hxeq] at hex
            exact lt_irrefl _ hex
        have hMeq : x :: q = M := hMsub.eq_of_length hMperm.length_eq.symm
        rw [← hMeq, hae]
        simp only [insertByTime]
        rw [if_neg hxe]

/-- Filter at a fixed timestamp commutes with scheduling: ties keep insertion order. -/
theorem insertByTime_filter (e : SimEvent) (q : List SimEvent) (t : ℝ)
    (hq : q.Pairwise fun a b => timeLE a b = true) :
    (insertByTime e q).filter (fun x => decide (x.time = t)) =
      (q ++ [e]).filter (fun x => decide (x.time = t)) := by
  induction q with
  | nil => rfl
  | cons x q ih =>
    rw [List.pairwise_cons] at hq
    obtain ⟨hx, hq'⟩ := hq
    unfold insertByTime
    by_cases hxe : x.time ≤ e.time
    · rw [if_pos hxe]
      rw [List.cons_append, List.filter_cons, List.filter_cons]
      by_cases hxt : x.time = t
      · simp only [hxt, decide_True]
        rw [ih hq']
      · simp only [hxt, decide_False]
        rw [ih hq']
    · rw [if_neg hxe]
      have hex : e.time < x.time := lt_of_not_le hxe
      by_cases het : e.time = t
      · have hnone : (x :: q).filter (fun x => decide (x.time = t)) = [] := by
          rw [List.filter_eq_nil_iff]
          intro b hb
          have hxb : x.time ≤ b.time := by
            rcases List.mem_cons.mp hb with h1 | h1
            · rw [h1]
            · have := hx b h1
              simpa [timeLE, decide_eq_true_iff] using this
          simp only [decide_eq_true_iff]
          intro hbt
          rw [hbt, ← het] at hxb
          linarith
        rw [List.filter_cons, List.filter_append, hnone]
        simp only [het, decide_True, List.nil_append, List.filter_cons]
        have : (q.filter fun x => decide (x.time = t)) = [] := by
          have := List.filter_eq_nil_iff.mp hnone
          rw [List.filter_eq_nil_iff]
          intro b hb
          exact this b (List.mem_cons.mpr (Or.inr hb))
        simp [het, this]
      · rw [List.filter_cons]
        simp only [het, decide_False]
        rw [List.filter_append]
        simp [het]

/-- Fold form of the two scheduler facts, generalized over the starting queue. -/
theorem foldl_schedule_props (es : List SimEvent) (q : List SimEvent)
    (hq : q.Pairwise fun a b => timeLE a b = true) :
    ((es.foldl (fun acc e => schedule e acc) q).Pairwise fun a b => timeLE a b = true) ∧
    List.Perm (es.foldl (fun acc e => schedule e acc) q) (q ++ es) ∧
    ∀ t : ℝ, (es.foldl (fun acc e => schedule e acc) q).filter
        (fun x => decide (x.time = t)) =
      (q ++ es).filter (fun x => decide (x.time = t)) := by
  induction es generalizing q with
  | nil =>
    simp [hq]
  | cons e es ih =>
    rw [List.foldl_cons]
    have hsched : schedule e q = insertByTime e q := schedule_eq_insertByTime e q hq
    have hsorted : (schedule e q).Pairwise fun a b => timeLE a b = true := by
      rw [hsched]
      exact sorted_insertByTime e q hq
    obtain ⟨ihs, ihp, ihf⟩ := ih (schedule e q) hsorted
    refine ⟨ihs, ?_, ?_⟩
    · refine ihp.trans ?_
      have h1 : List.Perm (schedule e q) (e :: q) := by
        rw [hsched]
        exact insertByTime_perm e q
      refine (h1.append_right es).trans ?_
      rw [List.cons_append]
      exact List.perm_middle.symm
    · intro t
      rw [ihf t]
      rw [hsched]
      rw [List.filter_append, insertByTime_filter e q t hq]
      rw [List.filter_append, List.filter_append]
      rw [List.append_assoc]
      congr 1
      rw [← List.filter_append]
      rfl

/-! ### Generic facts about scheduling and traces -/

theorem schedule_perm (e : SimEvent) (q : List SimEvent) :
    List.Perm (schedule e q) (e :: q) := by
  rw [schedule_def]
  exact (List.mergeSort_perm _ _).trans (List.perm_append_singleton e q)

theorem mem_schedule (x e : SimEvent) (q : List SimEvent) :
    x ∈ schedule e q ↔ x = e ∨ x ∈ q := by
  rw [(schedule_perm e q).mem_iff, List.mem_cons]

theorem countP_schedule (p : SimEvent → Bool) (e : SimEvent) (q : List SimEvent) :
    (schedule e q).countP p = q.countP p + (if p e then 1 else 0) := by
  rw [(schedule_perm e q).countP_eq, List.countP_cons]

theorem sorted_schedule (e : SimEvent) (q : List SimEvent) :
    (schedule e q).Pairwise fun a b => timeLE a b = true := by
  rw [schedule_def]
  exact List.sorted_mergeSort timeLE_trans timeLE_total _

theorem schedule_nil (e : SimEvent) : schedule e [] = [e] := by
  rw [schedule_def]
  simp

theorem traceLast_append (tr : List SimEvent) (e : SimEvent) :
    traceLast (tr ++ [e]) = e.time := by
  simp [traceLast]

theorem wipOf_append (tr : List SimEvent) (e : SimEvent) :
    wipOf (tr ++ [e]) = wipOf tr + wipDelta e := by
  simp [wipOf]

theorem getLastD_time_cons (x : SimEvent) (tr : List SimEvent) (d : ℝ) :
    (((x :: tr).getLast?).map SimEvent.time).getD d =
      ((tr.getLast?).map SimEvent.time).getD x.time := by
  induction tr generalizing x d with
  | nil => rfl
  | cons y tr ih =>
    rw [List.getLast?_cons_cons, ih y d, ih y x.time]

theorem traceAreaAux_append (tr : List SimEvent) : ∀ (prev : ℝ) (wip : ℤ) (e : SimEvent),
    traceAreaAux prev wip (tr ++ [e]) =
      traceAreaAux prev wip tr +
        ((wip + wipOf tr : ℤ) : ℝ) * (e.time - ((tr.getLast?).map SimEvent.time).getD prev) := by
  induction tr with
  | nil =>
    intro prev wip e
    simp [traceAreaAux, wipOf]
  | cons x tr ih =>
    intro prev wip e
    rw [List.cons_append]
    simp only [traceAreaAux]
    rw [ih x.time (wip + wipDelta x) e, getLastD_time_cons]
    have hw : wipOf (x :: tr) = wipDelta x + wipOf tr := by
      simp [wipOf]
    rw [hw]
    push_cast
    ring

theorem traceArea_append (tr : List SimEvent) (e : SimEvent) :
    traceArea (tr ++ [e]) = traceArea tr + ((wipOf tr : ℤ) : ℝ) * (e.time - traceLast tr) := by
  unfold traceArea
  rw [traceAreaAux_append]
  simp [traceLast]

/-- Fuel induction: a property preserved by every processed event holds at the end
of the loop. -/
theorem runLoop_preserve {cfg : SimulationConfig} {P : SimState → Prop}
    (hstep : ∀ e rest s, s.queue = e :: rest → s.currentTime < cfg.duration → P s →
      P (processEvent cfg e { s with queue := rest }))
    (fuel : ℕ) (s : SimState) (hs : P s) : P (runLoop cfg fuel s) := by
  induction fuel generalizing s with
  | zero => exact hs
  | succ n ih =>
    simp only [runLoop]
    cases hq : s.queue with
    | nil => exact hs
    | cons e rest =>
      dsimp only
      by_cases h : s.currentTime < cfg.duration
      · rw [if_pos h]
        exact ih _ (hstep e rest s hq h hs)
      · rw [if_neg h]
        exact hs

/-! ### Frame lemmas: handlers leave the clock, trace, and area untouched -/

theorem handleArrival_frame (cfg : SimulationConfig) (t : ℝ) (s : SimState) :
    (handleArrival cfg t s).trace = s.trace ∧
    (handleArrival cfg t s).currentTime = s.currentTime ∧
    (handleArrival cfg t s).lastEventTime = s.lastEventTime ∧
    (handleArrival cfg t s).wipArea = s.wipArea := by
  unfold handleArrival
  dsimp only
  split_ifs <;> exact ⟨rfl, rfl, rfl, rfl⟩

theorem handleMouldingFinish_frame (cfg : SimulationConfig) (t : ℝ) (j : ℕ) (s : SimState) :
    (handleMouldingFinish cfg t j s).trace = s.trace ∧
    (handleMouldingFinish cfg t j s).currentTime = s.currentTime ∧
    (handleMouldingFinish cfg t j s).lastEventTime = s.lastEventTime ∧
    (handleMouldingFinish cfg t j s).wipArea = s.wipArea := by
  unfold handleMouldingFinish
  cases hmq : s.mouldingQueue <;> dsimp only <;> split_ifs <;> exact ⟨rfl, rfl, rfl, rfl⟩

theorem handleInspectionFinish_frame (cfg : SimulationConfig) (t : ℝ) (j : ℕ)
    (s : SimState) :
    (handleInspectionFinish cfg t j s).trace = s.trace ∧
    (handleInspectionFinish cfg t j s).currentTime = s.currentTime ∧
    (handleInspectionFinish cfg t j s).lastEventTime = s.lastEventTime ∧
    (handleInspectionFinish cfg t j s).wipArea = s.wipArea := by
  unfold handleInspectionFinish
  cases hiq : s.inspectionQueue <;> dsimp only <;> split_ifs <;> exact ⟨rfl, rfl, rfl, rfl⟩

theorem handlePackagingFinish_frame (cfg : SimulationConfig) (t : ℝ) (j : ℕ)
    (s : SimState) :
    (handlePackagingFinish cfg t j s).trace = s.trace ∧
    (handlePackagingFinish cfg t j s).currentTime = s.currentTime ∧
    (handlePackagingFinish cfg t j s).lastEventTime = s.lastEventTime ∧
    (handlePackagingFinish cfg t j s).wipArea = s.wipArea := by
  unfold handlePackagingFinish
  cases hpq : s.packagingQueue <;> dsimp only <;> split_ifs <;> exact ⟨rfl, rfl, rfl, rfl⟩

theorem processEvent_fields (cfg : SimulationConfig) (e : SimEvent) (s : SimState) :
    (processEvent cfg e s).trace = s.trace ++ [e] ∧
    (processEvent cfg e s).currentTime = e.time ∧
    (processEvent cfg e s).lastEventTime = e.time ∧
    (processEvent cfg e s).wipArea =
      s.wipArea + (s.currentWip : ℝ) * (e.time - s.lastEventTime) := by
  cases e with
  | arrival t =>
    obtain ⟨h1, h2, h3, h4⟩ := handleArrival_frame cfg t
      { s with wipArea := s.wipArea + (s.currentWip : ℝ) * (t - s.lastEventTime),
               lastEventTime := t, currentTime := t,
               trace := s.trace ++ [SimEvent.arrival t] }
    exact ⟨h1, h2, h3, h4⟩
  | mouldingFinish t j =>
    obtain ⟨h1, h2, h3, h4⟩ := handleMouldingFinish_frame cfg t j
      { s with wipArea := s.wipArea + (s.currentWip : ℝ) * (t - s.lastEventTime),
               lastEventTime := t, currentTime := t,
               trace := s.trace ++ [SimEvent.mouldingFinish t j] }
    exact ⟨h1, h2, h3, h4⟩
  | inspectionFinish t j =>
    obtain ⟨h1, h2, h3, h4⟩ := handleInspectionFinish_frame cfg t j
      { s with wipArea := s.wipArea + (s.currentWip : ℝ) * (t - s.lastEventTime),
               lastEventTime := t, currentTime := t,
               trace := s.trace ++ [SimEvent.inspectionFinish t j] }
    exact ⟨h1, h2, h3, h4⟩
  | packagingFinish t j =>
    obtain ⟨h1, h2, h3, h4⟩ := handlePackagingFinish_frame cfg t j
      { s with wipArea := s.wipArea + (s.currentWip : ℝ) * (t - s.lastEventTime),
               lastEventTime := t, currentTime := t,
               trace := s.trace ++ [SimEvent.packagingFinish t j] }
    exact ⟨h1, h2, h3, h4⟩

/-! ### The trace invariant and the duration boundary -/

theorem invTrace_step (cfg : SimulationConfig) (e : SimEvent) (rest : List SimEvent)
    (s : SimState) (hq : s.queue = e :: rest) (hlt : s.currentTime < cfg.duration)
    (h : InvTrace cfg s) : InvTrace cfg (processEvent cfg e { s with queue := rest }) := by
  obtain ⟨htr, hct, hlet, _⟩ := processEvent_fields cfg e { s with queue := rest }
  have htr' : (processEvent cfg e { s with queue := rest }).trace = s.trace ++ [e] := htr
  constructor
  · rw [hct, htr', traceLast_append]
  · rw [hlet, htr', traceLast_append]
  · rw [htr']
    rw [List.dropLast_concat]
    intro x hx
    rcases List.eq_nil_or_concat s.trace with hnil | ⟨l2, y, hconc⟩
    · rw [hnil] at hx
      cases hx
    · rw [List.concat_eq_append] at hconc
      rw [hconc] at hx
      rcases List.mem_append.mp hx with h1 | h1
      · apply h.trace_lt
        rw [hconc, List.dropLast_concat]
        exact h1
      · rw [List.mem_singleton] at h1
        subst h1
        have hxt : s.currentTime = x.time := by
          rw [h.ct_last, hconc, traceLast_append]
        linarith

theorem invTrace_init (cfg : SimulationConfig) : InvTrace cfg (initState cfg) := by
  constructor
  · simp [initState, traceLast]
  · simp [initState, traceLast]
  · intro e he
    simp [initState] at he

theorem invTrace_final (cfg : SimulationConfig) (fuel : ℕ) :
    InvTrace cfg (finalState cfg fuel) :=
  runLoop_preserve (fun e rest s hq hlt h => invTrace_step cfg e rest s hq hlt h) fuel _
    (invTrace_init cfg)

/-! ### Concrete LCG states reached from seed 0 -/

theorem lcg0 : lcgNext 0 = 49297 := by norm_num [lcgNext]

theorem lcg49297 : lcgNext 49297 = 165494 := by norm_num [lcgNext]

theorem lcg165494 : lcgNext 165494 = 127551 := by norm_num [lcgNext]

theorem lcg127551 : lcgNext 127551 = 172348 := by norm_num [lcgNext]

theorem lcg172348 : lcgNext 172348 = 191165 := by norm_num [lcgNext]

/-! ### Bounds for the log factors of the exponential draws -/

theorem lnf_eq (a : ℕ) : lnf a = -Real.log (1 - (a : ℝ) / 233280) := rfl

theorem one_sub_div_pos (a : ℕ) (h : a < 233280) : (0:ℝ) < 1 - (a : ℝ) / 233280 := by
  have ha : (a : ℝ) < 233280 := by exact_mod_cast h
  rw [sub_pos, div_lt_one]
  · exact ha
  · norm_num

theorem lnf_ge (a : ℕ) (h : a < 233280) : (a : ℝ) / 233280 ≤ lnf a := by
  have hx := one_sub_div_pos a h
  have hlog := Real.log_le_sub_one_of_pos hx
  rw [lnf_eq]
  linarith

theorem lnf_le (a : ℕ) (h : a < 233280) : lnf a ≤ (a : ℝ) / (233280 - a) := by
  have hx := one_sub_div_pos a h
  have ha : (a : ℝ) < 233280 := by exact_mod_cast h
  have hne : (0:ℝ) < (233280 : ℝ) - a := by linarith
  have hinv : (0:ℝ) < (1 - (a : ℝ) / 233280)⁻¹ := by positivity
  have hlog := Real.log_le_sub_one_of_pos hinv
  rw [Real.log_inv] at hlog
  have heq : (1 - (a : ℝ) / 233280)⁻¹ - 1 = (a : ℝ) / (233280 - a) := by
    rw [sub_eq_iff_eq_add]
    field_simp
  rw [lnf_eq]
  linarith

theorem A1_pos : 0 < A1 := by
  have h := lnf_ge 49297 (by norm_num)
  have : (0:ℝ) < 49297 / 233280 := by norm_num
  rw [A1]
  nlinarith

theorem A1_lb : 21 / 20 ≤ A1 := by
  have h := lnf_ge 49297 (by norm_num)
  rw [A1]
  rw [show ((49297:ℕ) : ℝ) = 49297 by norm_num] at h
  nlinarith

theorem A1_ub : A1 ≤ 27 / 20 := by
  have h := lnf_le 49297 (by norm_num)
  rw [A1]
  rw [show ((49297:ℕ) : ℝ) = 49297 by norm_num] at h
  nlinarith

theorem P1_lb : 14 ≤ P1 := by
  have h := lnf_ge 172348 (by norm_num)
  rw [P1]
  rw [show ((172348:ℕ) : ℝ) = 172348 by norm_num] at h
  nlinarith

theorem gap3_lb : 5 / 2 ≤ lnf 127551 * 5 := by
  have h := lnf_ge 127551 (by norm_num)
  rw [show ((127551:ℕ) : ℝ) = 127551 by norm_num] at h
  nlinarith

/-! ### Unfolding the loop one step at a time -/

theorem runLoop_cons (cfg : SimulationConfig) (n : ℕ) (s : SimState) (e : SimEvent)
    (rest : List SimEvent) (hq : s.queue = e :: rest)
    (h : s.currentTime < cfg.duration) :
    runLoop cfg (n + 1) s = runLoop cfg n (processEvent cfg e { s with queue := rest }) := by
  simp only [runLoop]
  rw [hq]
  dsimp only
  rw [if_pos h]

theorem runLoop_exit (cfg : SimulationConfig) (n : ℕ) (s : SimState)
    (h : ¬ s.currentTime < cfg.duration) : runLoop cfg n s = s := by
  cases n with
  | zero => rfl
  | succ n =>
    simp only [runLoop]
    cases hq : s.queue with
    | nil => rfl
    | cons e rest =>
      dsimp only
      rw [if_neg h]

theorem runLoop_emptyq (cfg : SimulationConfig) (n : ℕ) (s : SimState)
    (h : s.queue = []) : runLoop cfg n s = s := by
  cases n with
  | zero => rfl
  | succ n =>
    simp only [runLoop]
    rw [h]

/-! ### The first two iterations of a seed-0 run, evaluated -/

theorem choiceIdx_49297 : choiceIdx 4 49297 = (2, 165494) := by
  unfold choiceIdx lcgUniform
  rw [lcg49297]
  refine Prod.ext ?_ rfl
  show ⌊((165494:ℕ) : ℝ) / 233280 * ((4:ℕ) : ℝ)⌋₊ = 2
  rw [Nat.floor_eq_iff (by positivity)]
  norm_num

theorem initState_seed0 (cfg : SimulationConfig) (hseed : cfg.seed = 0)
    (hmean : cfg.arrivalIntervalMean = 5) : initState cfg = I0 cfg := by
  unfold initState I0
  rw [hseed, hmean]
  dsimp only
  rw [schedule_nil]
  simp only [expDraw, lcgUniform, lcg0, SimState.mk.injEq]
  try norm_num [A1, lnf]

theorem arrival1_step (cfg : SimulationConfig)
    (hmean : cfg.arrivalIntervalMean = 5) (hm : cfg.mouldingMachines = 1)
    (hi : cfg.inspectionStations = 1) (hp : cfg.packagingMachines = 1)
    (hd : ¬ A1 + lnf 127551 * 5 < cfg.duration) :
    processEvent cfg (SimEvent.arrival A1) { I0 cfg with queue := [] } = S1 := by
  unfold processEvent
  dsimp only
  unfold handleArrival I0
  rw [hmean, hm]
  dsimp only [SimEvent.time]
  rw [choiceIdx_49297]
  dsimp only
  rw [show productTypes.getD 2 ProductType.typeA = ProductType.typeC from rfl]
  simp only [expDraw, lcgUniform, lcg165494, lcg127551]
  have hd2 : ¬ A1 + -Real.log (1 - ((127551:ℕ) : ℝ) / 233280) * 5 < cfg.duration := hd
  rw [if_neg hd2]
  try dsimp only
  rw [if_pos (show 0 < (1:ℕ) by norm_num)]
  try dsimp only
  rw [schedule_nil]
  unfold S1 job1
  simp only [updateJob, SimState.mk.injEq, List.nil_append, List.length_nil,
    List.getElem?_cons_zero, List.set_cons_zero]
  norm_num [A1, P1, lnf, lcg127551, baseMean, stageMult, Job.mk.injEq, hi, hp]

theorem arrival1_step_noMachine (cfg : SimulationConfig)
    (hmean : cfg.arrivalIntervalMean = 5) (hm : cfg.mouldingMachines = 0)
    (hd : ¬ A1 + lnf 127551 * 5 < cfg.duration) :
    processEvent cfg (SimEvent.arrival A1) { I0 cfg with queue := [] } = S1q cfg := by
  unfold processEvent
  dsimp only
  unfold handleArrival I0
  rw [hmean, hm]
  dsimp only [SimEvent.time]
  rw [choiceIdx_49297]
  dsimp only
  rw [show productTypes.getD 2 ProductType.typeA = ProductType.typeC from rfl]
  simp only [expDraw, lcgUniform, lcg165494]
  have hd2 : ¬ A1 + -Real.log (1 - ((127551:ℕ) : ℝ) / 233280) * 5 < cfg.duration := hd
  rw [if_neg hd2]
  try dsimp only
  rw [if_neg (show ¬ 0 < (0:ℕ) by norm_num)]
  unfold S1q job1q
  simp only [SimState.mk.injEq, List.nil_append, List.length_nil]
  norm_num [A1, lnf, Job.mk.injEq]

theorem mf_step (cfg : SimulationConfig) (hi : cfg.inspectionStations = 1) :
    processEvent cfg (SimEvent.mouldingFinish (A1 + P1) 0) { S1 with queue := [] } = S2 := by
  unfold processEvent
  dsimp only
  unfold handleMouldingFinish S1 job1
  dsimp only [SimEvent.time]
  simp only [updateJob, jobAt, List.getElem?_cons_zero, List.set_cons_zero,
    List.getD_cons_zero]
  rw [if_pos (show truthy (some A1) from ⟨A1, rfl, ne_of_gt A1_pos⟩)]
  try dsimp only
  rw [if_pos (show 0 < (1:ℕ) by norm_num)]
  try dsimp only
  rw [schedule_nil]
  unfold S2 job1insp job1
  simp only [expDraw, lcgUniform, lcg172348, SimState.mk.injEq, Job.mk.injEq]
  norm_num [baseMean, stageMult, lnf]

theorem final_cfg1 : finalState cfg1 2 = S1 := by
  unfold finalState
  rw [initState_seed0 cfg1 rfl rfl]
  rw [runLoop_cons cfg1 1 (I0 cfg1) (SimEvent.arrival A1) [] rfl
    (show (I0 cfg1).currentTime < cfg1.duration by norm_num [I0, cfg1])]
  rw [arrival1_step cfg1 rfl rfl rfl rfl (by
    rw [show cfg1.duration = 1 / 10000 from rfl]
    rw [not_lt]
    linarith [A1_lb, gap3_lb])]
  exact runLoop_exit cfg1 1 S1 (by
    rw [show S1.currentTime = A1 from rfl, show cfg1.duration = 1 / 10000 from rfl, not_lt]
    linarith [A1_lb])

theorem final_cfg2 : finalState cfg2 2 = S1q cfg2 := by
  unfold finalState
  rw [initState_seed0 cfg2 rfl rfl]
  rw [runLoop_cons cfg2 1 (I0 cfg2) (SimEvent.arrival A1) [] rfl
    (show (I0 cfg2).currentTime < cfg2.duration by norm_num [I0, cfg2])]
  rw [arrival1_step_noMachine cfg2 rfl rfl (by
    rw [show cfg2.duration = 2 from rfl]
    rw [not_lt]
    linarith [A1_lb, gap3_lb])]
  exact runLoop_emptyq cfg2 1 (S1q cfg2) rfl

theorem final_cfg3 : finalState cfg3 3 = S2 := by
  unfold finalState
  rw [initState_seed0 cfg3 rfl rfl]
  rw [runLoop_cons cfg3 2 (I0 cfg3) (SimEvent.arrival A1) [] rfl
    (show (I0 cfg3).currentTime < cfg3.duration by norm_num [I0, cfg3])]
  rw [arrival1_step cfg3 rfl rfl rfl rfl (by
    rw [show cfg3.duration = 2 from rfl]
    rw [not_lt]
    linarith [A1_lb, gap3_lb])]
  rw [runLoop_cons cfg3 1 S1 (SimEvent.mouldingFinish (A1 + P1) 0) [] rfl
    (by
      rw [show S1.currentTime = A1 from rfl, show cfg3.duration = 2 from rfl]
      linarith [A1_ub])]
  rw [mf_step cfg3 rfl]
  exact runLoop_exit cfg3 1 S2 (by
    rw [show S2.currentTime = A1 + P1 from rfl, show cfg3.duration = 2 from rfl, not_lt]
    linarith [A1_pos, P1_lb])

/-! ### How each handler changes the WIP counter and the pending-job count -/

theorem handleArrival_wip (cfg : SimulationConfig) (t : ℝ) (s : SimState) :
    (handleArrival cfg t s).currentWip = s.currentWip + 1 := by
  unfold handleArrival
  dsimp only
  split_ifs <;> rfl

theorem handleMouldingFinish_wip (cfg : SimulationConfig) (t : ℝ) (j : ℕ) (s : SimState) :
    (handleMouldingFinish cfg t j s).currentWip = s.currentWip := by
  unfold handleMouldingFinish
  cases hmq : s.mouldingQueue <;> dsimp only <;> split_ifs <;> rfl

theorem handleInspectionFinish_wip (cfg : SimulationConfig) (t : ℝ) (j : ℕ) (s : SimState) :
    (handleInspectionFinish cfg t j s).currentWip = s.currentWip := by
  unfold handleInspectionFinish
  cases hiq : s.inspectionQueue <;> dsimp only <;> split_ifs <;> rfl

theorem handlePackagingFinish_wip (cfg : SimulationConfig) (t : ℝ) (j : ℕ) (s : SimState) :
    (handlePackagingFinish cfg t j s).currentWip = s.currentWip - 1 := by
  unfold handlePackagingFinish
  cases hpq : s.packagingQueue <;> dsimp only <;> split_ifs <;> rfl

theorem pendingCount_handleArrival (cfg : SimulationConfig) (t : ℝ) (s : SimState) :
    pendingCount (handleArrival cfg t s) = pendingCount s + 1 := by
  unfold handleArrival
  dsimp only
  split_ifs <;>
    simp [pendingCount, countP_schedule, SimEvent.isFinish] <;> omega

theorem pendingCount_handleMouldingFinish (cfg : SimulationConfig) (t : ℝ) (j : ℕ)
    (s : SimState) :
    pendingCount (handleMouldingFinish cfg t j s) = pendingCount s + 1 := by
  unfold handleMouldingFinish
  cases hmq : s.mouldingQueue with
  | nil =>
    dsimp only
    split_ifs <;>
      simp [pendingCount, countP_schedule, SimEvent.isFinish, hmq] <;> omega
  | cons k ks =>
    dsimp only
    split_ifs <;>
      simp [pendingCount, countP_schedule, SimEvent.isFinish, hmq] <;> omega

theorem pendingCount_handleInspectionFinish (cfg : SimulationConfig) (t : ℝ) (j : ℕ)
    (s : SimState) :
    pendingCount (handleInspectionFinish cfg t j s) = pendingCount s + 1 := by
  unfold handleInspectionFinish
  cases hiq : s.inspectionQueue with
  | nil =>
    dsimp only
    split_ifs <;>
      simp [pendingCount, countP_schedule, SimEvent.isFinish, hiq] <;> omega
  | cons k ks =>
    dsimp only
    split_ifs <;>
      simp [pendingCount, countP_schedule, SimEvent.isFinish, hiq] <;> omega

theorem pendingCount_handlePackagingFinish (cfg : SimulationConfig) (t : ℝ) (j : ℕ)
    (s : SimState) :
    pendingCount (handlePackagingFinish cfg t j s) = pendingCount s := by
  unfold handlePackagingFinish
  cases hpq : s.packagingQueue with
  | nil =>
    dsimp only
    split_ifs <;>
      simp [pendingCount, countP_schedule, SimEvent.isFinish, hpq] <;> omega
  | cons k ks =>
    dsimp only
    split_ifs <;>
      simp [pendingCount, countP_schedule, SimEvent.isFinish, hpq] <;> omega

/-! ### The WIP invariant -/

theorem wip_processEvent (cfg : SimulationConfig) (e : SimEvent) (s : SimState) :
    (processEvent cfg e s).currentWip = s.currentWip + wipDelta e := by
  cases e with
  | arrival t =>
    show (handleArrival cfg t _).currentWip = _
    rw [handleArrival_wip]
    rfl
  | mouldingFinish t j =>
    show (handleMouldingFinish cfg t j _).currentWip = _
    rw [handleMouldingFinish_wip]
    show s.currentWip = s.currentWip + 0
    rw [add_zero]
  | inspectionFinish t j =>
    show (handleInspectionFinish cfg t j _).currentWip = _
    rw [handleInspectionFinish_wip]
    show s.currentWip = s.currentWip + 0
    rw [add_zero]
  | packagingFinish t j =>
    show (handlePackagingFinish cfg t j _).currentWip = _
    rw [handlePackagingFinish_wip]
    rfl

theorem pendingCount_processEvent (cfg : SimulationConfig) (e : SimEvent) (s : SimState) :
    pendingCount (processEvent cfg e s) =
      pendingCount s + (if e.isPackagingFinish then 0 else 1) := by
  cases e with
  | arrival t =>
    show pendingCount (handleArrival cfg t _) = _
    rw [pendingCount_handleArrival]
    rfl
  | mouldingFinish t j =>
    show pendingCount (handleMouldingFinish cfg t j _) = _
    rw [pendingCount_handleMouldingFinish]
    rfl
  | inspectionFinish t j =>
    show pendingCount (handleInspectionFinish cfg t j _) = _
    rw [pendingCount_handleInspectionFinish]
    rfl
  | packagingFinish t j =>
    show pendingCount (handlePackagingFinish cfg t j _) = _
    rw [pendingCount_handlePackagingFinish]
    rfl

theorem invWip_step (cfg : SimulationConfig) (e : SimEvent) (rest : List SimEvent)
    (s : SimState) (hq : s.queue = e :: rest) (hlt : s.currentTime < cfg.duration)
    (h : InvWip s) : InvWip (processEvent cfg e { s with queue := rest }) := by
  obtain ⟨htr, hct, hlet, harea⟩ := processEvent_fields cfg e { s with queue := rest }
  have htr' : (processEvent cfg e { s with queue := rest }).trace = s.trace ++ [e] := htr
  have harea' : (processEvent cfg e { s with queue := rest }).wipArea =
      s.wipArea + (s.currentWip : ℝ) * (e.time - s.lastEventTime) := harea
  have hwip : (processEvent cfg e { s with queue := rest }).currentWip =
      s.currentWip + wipDelta e := wip_processEvent cfg e _
  have hps0 : pendingCount s =
      pendingCount { s with queue := rest } + (if e.isFinish then 1 else 0) := by
    unfold pendingCount
    rw [hq, List.countP_cons]
    dsimp only
    cases e <;> simp [SimEvent.isFinish] <;> omega
  have hpend : pendingCount (processEvent cfg e { s with queue := rest }) =
      pendingCount { s with queue := rest } + (if e.isPackagingFinish then 0 else 1) :=
    pendingCount_processEvent cfg e _
  have hwip_pend : (processEvent cfg e { s with queue := rest }).currentWip =
      (pendingCount (processEvent cfg e { s with queue := rest }) : ℤ) := by
    have e1 := hpend
    have e2 := hps0
    obtain ⟨P, hP⟩ : ∃ P : ℕ, pendingCount { s with queue := rest } = P := ⟨_, rfl⟩
    rw [hP] at e1 e2
    rw [hwip, e1, h.wip_pending, e2]
    cases e <;> simp [SimEvent.isFinish, SimEvent.isPackagingFinish, wipDelta] <;>
      push_cast <;> ring
  constructor
  · rw [hlet, htr', traceLast_append]
  · rw [harea', htr', traceArea_append, h.area, h.wip_trace, h.let_last]
  · rw [hwip, htr', wipOf_append, h.wip_trace]
  · exact hwip_pend
  · intro k
    rw [htr']
    by_cases hk : k ≤ s.trace.length
    · rw [List.take_append_of_le_length hk]
      exact h.wip_prefix k
    · rw [List.take_of_length_le (by
        rw [List.length_append, List.length_singleton]
        omega)]
      have : wipOf (s.trace ++ [e]) =
          (pendingCount (processEvent cfg e { s with queue := rest }) : ℤ) := by
        rw [← hwip_pend, hwip, wipOf_append, h.wip_trace]
      rw [this]
      positivity

theorem invWip_init (cfg : SimulationConfig) : InvWip (initState cfg) := by
  refine ⟨?_, ?_, ?_, ?_, ?_⟩
  · simp [initState, traceLast]
  · simp [initState, traceArea, traceAreaAux]
  · simp [initState, wipOf]
  · show (0 : ℤ) = _
    rw [show pendingCount (initState cfg) = 0 from by
      simp [initState, pendingCount, schedule_nil, SimEvent.isFinish]]
    rfl
  · intro k
    simp [initState, wipOf]

theorem invWip_final (cfg : SimulationConfig) (fuel : ℕ) :
    InvWip (finalState cfg fuel) :=
  runLoop_preserve (fun e rest s hq hlt h => invWip_step cfg e rest s hq hlt h) fuel _
    (invWip_init cfg)

/-! ### Arena access lemmas -/

theorem jobAt_eq_getElem? (jobs : List Job) (i : ℕ) :
    jobAt jobs i = (jobs[i]?).getD defaultJob := List.getD_eq_getElem?_getD jobs i defaultJob

theorem jobAt_updateJob_ne (jobs : List Job) (i j : ℕ) (f : Job → Job) (h : i ≠ j) :
    jobAt (updateJob jobs i f) j = jobAt jobs j := by
  unfold updateJob
  cases hij : jobs[i]? with
  | none => rfl
  | some x => rw [jobAt_eq_getElem?, jobAt_eq_getElem?, List.getElem?_set_ne h]

theorem updateJob_length (jobs : List Job) (i : ℕ) (f : Job → Job) :
    (updateJob jobs i f).length = jobs.length := by
  unfold updateJob
  cases hij : jobs[i]? with
  | none => rfl
  | some x => rw [List.length_set]

theorem jobAt_updateJob_self (jobs : List Job) (i : ℕ) (f : Job → Job)
    (h : i < jobs.length) : jobAt (updateJob jobs i f) i = f (jobAt jobs i) := by
  unfold updateJob
  rw [List.getElem?_eq_getElem h]
  rw [jobAt_eq_getElem?, jobAt_eq_getElem?]
  simp [List.getElem?_set_self, h, List.getElem?_eq_getElem h]

theorem updateJob_oob (jobs : List Job) (i : ℕ) (f : Job → Job)
    (h : jobs.length ≤ i) : updateJob jobs i f = jobs := by
  unfold updateJob
  rw [List.getElem?_eq_none h]

theorem jobAt_append_lt (jobs : List Job) (jb : Job) (i : ℕ) (h : i < jobs.length) :
    jobAt (jobs ++ [jb]) i = jobAt jobs i := by
  rw [jobAt_eq_getElem?, jobAt_eq_getElem?, List.getElem?_append_left h]

theorem jobAt_append_self (jobs : List Job) (jb : Job) :
    jobAt (jobs ++ [jb]) jobs.length = jb := by
  rw [jobAt_eq_getElem?]
  simp

theorem jobAt_oob (jobs : List Job) (i : ℕ) (h : jobs.length ≤ i) :
    jobAt jobs i = defaultJob := by
  rw [jobAt_eq_getElem?, List.getElem?_eq_none h]
  rfl

/-- Reading any index other than the fresh one after an arrival push-and-stamp
gives the old arena entry. -/
theorem jobAt_push_stamp (jobs : List Job) (nj : Job) (f : Job → Job) (j : ℕ)
    (hne : j ≠ jobs.length) :
    jobAt (updateJob (jobs ++ [nj]) jobs.length f) j = jobAt jobs j := by
  rw [jobAt_updateJob_ne _ _ _ _ (fun h => hne h.symm)]
  rcases Nat.lt_or_ge j jobs.length with h | h
  · exact jobAt_append_lt jobs nj j h
  · have h1 : jobs.length < j := lt_of_le_of_ne h (fun h3 => hne h3.symm)
    rw [jobAt_oob (jobs ++ [nj]) j (by
      rw [List.length_append, List.length_singleton]
      omega)]
    rw [jobAt_oob jobs j (le_of_lt h1)]

theorem sorted_head_le (e : SimEvent) (rest : List SimEvent)
    (h : (e :: rest).Pairwise fun a b => timeLE a b = true) :
    ∀ x ∈ rest, e.time ≤ x.time := by
  intro x hx
  have := (List.pairwise_cons.mp h).1 x hx
  simpa [timeLE, decide_eq_true_iff] using this

theorem procTime_nonneg (pt : ProductType) (st : Stage) (s : ℕ) :
    0 ≤ (expDraw (baseMean pt * stageMult st) s).1 :=
  expDraw_nonneg _ (by cases pt <;> cases st <;> norm_num [baseMean, stageMult]) s

/-! ### Transformation lemmas for `QueueOk` -/

theorem QueueOk.tail {t : ℝ} {e : SimEvent} {q : List SimEvent} {jobs : List Job}
    (h : QueueOk t (e :: q) jobs) : QueueOk e.time q jobs := by
  have hle := sorted_head_le e q h.sortedq
  refine ⟨(List.pairwise_cons.mp h.sortedq).2, ?_, ?_, ?_, ?_⟩
  · intro x hx _
    exact hle x hx
  · intro t1 j hm
    exact h.mf_st t1 j (List.mem_cons.mpr (Or.inr hm))
  · intro t1 j hm
    exact h.if_st t1 j (List.mem_cons.mpr (Or.inr hm))
  · intro t1 j hm
    exact h.pf_st t1 j (List.mem_cons.mpr (Or.inr hm))

theorem QueueOk.schedule_arrival {t : ℝ} {q : List SimEvent} {jobs : List Job}
    (h : QueueOk t q jobs) (u : ℝ) : QueueOk t (schedule (.arrival u) q) jobs := by
  refine ⟨sorted_schedule _ _, ?_, ?_, ?_, ?_⟩
  · intro x hx hfin
    rcases (mem_schedule x _ q).mp hx with he | hq
    · subst he
      simp [SimEvent.isFinish] at hfin
    · exact h.future x hq hfin
  · intro t1 j hm
    rcases (mem_schedule _ _ q).mp hm with he | hq
    · cases he
    · exact h.mf_st t1 j hq
  · intro t1 j hm
    rcases (mem_schedule _ _ q).mp hm with he | hq
    · cases he
    · exact h.if_st t1 j hq
  · intro t1 j hm
    rcases (mem_schedule _ _ q).mp hm with he | hq
    · cases he
    · exact h.pf_st t1 j hq

theorem QueueOk.schedule_mf {t : ℝ} {q : List SimEvent} {jobs : List Job}
    (h : QueueOk t q jobs) (t1 : ℝ) (j : ℕ) (ht : t ≤ t1)
    (hst : ∀ st, (jobAt jobs j).mouldingStartTime = some st → st ≤ t1) :
    QueueOk t (schedule (.mouldingFinish t1 j) q) jobs := by
  refine ⟨sorted_schedule _ _, ?_, ?_, ?_, ?_⟩
  · intro x hx hfin
    rcases (mem_schedule x _ q).mp hx with he | hq
    · subst he
      exact ht
    · exact h.future x hq hfin
  · intro t2 j2 hm
    rcases (mem_schedule _ _ q).mp hm with he | hq
    · cases he
      exact hst
    · exact h.mf_st t2 j2 hq
  · intro t2 j2 hm
    rcases (mem_schedule _ _ q).mp hm with he | hq
    · cases he
    · exact h.if_st t2 j2 hq
  · intro t2 j2 hm
    rcases (mem_schedule _ _ q).mp hm with he | hq
    · cases he
    · exact h.pf_st t2 j2 hq

theorem QueueOk.schedule_if {t : ℝ} {q : List SimEvent} {jobs : List Job}
    (h : QueueOk t q jobs) (t1 : ℝ) (j : ℕ) (ht : t ≤ t1)
    (hst : ∀ st, (jobAt jobs j).inspectionStartTime = some st → st ≤ t1) :
    QueueOk t (schedule (.inspectionFinish t1 j) q) jobs := by
  refine ⟨sorted_schedule _ _, ?_, ?_, ?_, ?_⟩
  · intro x hx hfin
    rcases (mem_schedule x _ q).mp hx with he | hq
    · subst he
      exact ht
    · exact h.future x hq hfin
  · intro t2 j2 hm
    rcases (mem_schedule _ _ q).mp hm with he | hq
    · cases he
    · exact h.mf_st t2 j2 hq
  · intro t2 j2 hm
    rcases (mem_schedule _ _ q).mp hm with he | hq
    · cases he
      exact hst
    · exact h.if_st t2 j2 hq
  · intro t2 j2 hm
    rcases (mem_schedule _ _ q).mp hm with he | hq
    · cases he
    · exact h.pf_st t2 j2 hq

theorem QueueOk.schedule_pf {t : ℝ} {q : List SimEvent} {jobs : List Job}
    (h : QueueOk t q jobs) (t1 : ℝ) (j : ℕ) (ht : t ≤ t1)
    (hst : ∀ st, (jobAt jobs j).packagingStartTime = some st → st ≤ t1) :
    QueueOk t (schedule (.packagingFinish t1 j) q) jobs := by
  refine ⟨sorted_schedule _ _, ?_, ?_, ?_, ?_⟩
  · intro x hx hfin
    rcases (mem_schedule x _ q).mp hx with he | hq
    · subst he
      exact ht
    · exact h.future x hq hfin
  · intro t2 j2 hm
    rcases (mem_schedule _ _ q).mp hm with he | hq
    · cases he
    · exact h.mf_st t2 j2 hq
  · intro t2 j2 hm
    rcases (mem_schedule _ _ q).mp hm with he | hq
    · cases he
    · exact h.if_st t2 j2 hq
  · intro t2 j2 hm
    rcases (mem_schedule _ _ q).mp hm with he | hq
    · cases he
      exact hst
    · exact h.pf_st t2 j2 hq

/-- Updating a job without touching any stage-start stamp preserves `QueueOk`. -/
theorem QueueOk.update_frame {t : ℝ} {q : List SimEvent} {jobs : List Job}
    (h : QueueOk t q jobs) (i : ℕ) (f : Job → Job)
    (hf1 : ∀ jb, (f jb).mouldingStartTime = jb.mouldingStartTime)
    (hf2 : ∀ jb, (f jb).inspectionStartTime = jb.inspectionStartTime)
    (hf3 : ∀ jb, (f jb).packagingStartTime = jb.packagingStartTime) :
    QueueOk t q (updateJob jobs i f) := by
  have key : ∀ j : ℕ,
      (jobAt (updateJob jobs i f) j).mouldingStartTime =
        (jobAt jobs j).mouldingStartTime ∧
      (jobAt (updateJob jobs i f) j).inspectionStartTime =
        (jobAt jobs j).inspectionStartTime ∧
      (jobAt (updateJob jobs i f) j).packagingStartTime =
        (jobAt jobs j).packagingStartTime := by
    intro j
    by_cases hij : i = j
    · subst hij
      rcases Nat.lt_or_ge i jobs.length with hlt | hge
      · rw [jobAt_updateJob_self jobs i f hlt]
        exact ⟨hf1 _, hf2 _, hf3 _⟩
      · rw [updateJob_oob jobs i f hge]
        exact ⟨rfl, rfl, rfl⟩
    · rw [jobAt_updateJob_ne jobs i j f hij]
      exact ⟨rfl, rfl, rfl⟩
  refine ⟨h.sortedq, h.future, ?_, ?_, ?_⟩
  · intro t1 j hm st hst
    exact h.mf_st t1 j hm st ((key j).1 ▸ hst)
  · intro t1 j hm st hst
    exact h.if_st t1 j hm st ((key j).2.1 ▸ hst)
  · intro t1 j hm st hst
    exact h.pf_st t1 j hm st ((key j).2.2 ▸ hst)

/-- Stamping a moulding start with the current lower bound preserves `QueueOk`. -/
theorem QueueOk.stamp_mould {t : ℝ} {q : List SimEvent} {jobs : List Job}
    (h : QueueOk t q jobs) (i : ℕ) :
    QueueOk t q (updateJob jobs i fun jb => { jb with mouldingStartTime := some t }) := by
  refine ⟨h.sortedq, h.future, ?_, ?_, ?_⟩
  · intro t1 j hm st hst
    by_cases hij : i = j
    · subst hij
      rcases Nat.lt_or_ge i jobs.length with hlt | hge
      · rw [jobAt_updateJob_self jobs i _ hlt] at hst
        change some t = some st at hst
        injection hst with hts
        subst hts
        exact h.future _ hm rfl
      · rw [updateJob_oob jobs i _ hge] at hst
        exact h.mf_st t1 i hm st hst
    · rw [jobAt_updateJob_ne jobs i j _ hij] at hst
      exact h.mf_st t1 j hm st hst
  · intro t1 j hm st hst
    by_cases hij : i = j
    · subst hij
      rcases Nat.lt_or_ge i jobs.length with hlt | hge
      · rw [jobAt_updateJob_self jobs i _ hlt] at hst
        exact h.if_st t1 i hm st hst
      · rw [updateJob_oob jobs i _ hge] at hst
        exact h.if_st t1 i hm st hst
    · rw [jobAt_updateJob_ne jobs i j _ hij] at hst
      exact h.if_st t1 j hm st hst
  · intro t1 j hm st hst
    by_cases hij : i = j
    · subst hij
      rcases Nat.lt_or_ge i jobs.length with hlt | hge
      · rw [jobAt_updateJob_self jobs i _ hlt] at hst
        exact h.pf_st t1 i hm st hst
      · rw [updateJob_oob jobs i _ hge] at hst
        exact h.pf_st t1 i hm st hst
    · rw [jobAt_updateJob_ne jobs i j _ hij] at hst
      exact h.pf_st t1 j hm st hst

/-- Stamping an inspection start with the current lower bound preserves `QueueOk`. -/
theorem QueueOk.stamp_insp {t : ℝ} {q : List SimEvent} {jobs : List Job}
    (h : QueueOk t q jobs) (i : ℕ) :
    QueueOk t q (updateJob jobs i fun jb => { jb with inspectionStartTime := some t }) := by
  refine ⟨h.sortedq, h.future, ?_, ?_, ?_⟩
  · intro t1 j hm st hst
    by_cases hij : i = j
    · subst hij
      rcases Nat.lt_or_ge i jobs.length with hlt | hge
      · rw [jobAt_updateJob_self jobs i _ hlt] at hst
        exact h.mf_st t1 i hm st hst
      · rw [updateJob_oob jobs i _ hge] at hst
        exact h.mf_st t1 i hm st hst
    · rw [jobAt_updateJob_ne jobs i j _ hij] at hst
      exact h.mf_st t1 j hm st hst
  · intro t1 j hm st hst
    by_cases hij : i = j
    · subst hij
      rcases Nat.lt_or_ge i jobs.length with hlt | hge
      · rw [jobAt_updateJob_self jobs i _ hlt] at hst
        change some t = some st at hst
        injection hst with hts
        subst hts
        exact h.future _ hm rfl
      · rw [updateJob_oob jobs i _ hge] at hst
        exact h.if_st t1 i hm st hst
    · rw [jobAt_updateJob_ne jobs i j _ hij] at hst
      exact h.if_st t1 j hm st hst
  · intro t1 j hm st hst
    by_cases hij : i = j
    · subst hij
      rcases Nat.lt_or_ge i jobs.length with hlt | hge
      · rw [jobAt_updateJob_self jobs i _ hlt] at hst
        exact h.pf_st t1 i hm st hst
      · rw [updateJob_oob jobs i _ hge] at hst
        exact h.pf_st t1 i hm st hst
    · rw [jobAt_updateJob_ne jobs i j _ hij] at hst
      exact h.pf_st t1 j hm st hst

/-- Stamping a packaging start with the current lower bound preserves `QueueOk`. -/
theorem QueueOk.stamp_pack {t : ℝ} {q : List SimEvent} {jobs : List Job}
    (h : QueueOk t q jobs) (i : ℕ) :
    QueueOk t q (updateJob jobs i fun jb => { jb with packagingStartTime := some t }) := by
  refine ⟨h.sortedq, h.future, ?_, ?_, ?_⟩
  · intro t1 j hm st hst
    by_cases hij : i = j
    · subst hij
      rcases Nat.lt_or_ge i jobs.length with hlt | hge
      · rw [jobAt_updateJob_self jobs i _ hlt] at hst
        exact h.mf_st t1 i hm st hst
      · rw [updateJob_oob jobs i _ hge] at hst
        exact h.mf_st t1 i hm st hst
    · rw [jobAt_updateJob_ne jobs i j _ hij] at hst
      exact h.mf_st t1 j hm st hst
  · intro t1 j hm st hst
    by_cases hij : i = j
    · subst hij
      rcases Nat.lt_or_ge i jobs.length with hlt | hge
      · rw [jobAt_updateJob_self jobs i _ hlt] at hst
        exact h.if_st t1 i hm st hst
      · rw [updateJob_oob jobs i _ hge] at hst
        exact h.if_st t1 i hm st hst
    · rw [jobAt_updateJob_ne jobs i j _ hij] at hst
      exact h.if_st t1 j hm st hst
  · intro t1 j hm st hst
    by_cases hij : i = j
    · subst hij
      rcases Nat.lt_or_ge i jobs.length with hlt | hge
      · rw [jobAt_updateJob_self jobs i _ hlt] at hst
        change some t = some st at hst
        injection hst with hts
        subst hts
        exact h.future _ hm rfl
      · rw [updateJob_oob jobs i _ hge] at hst
        exact h.pf_st t1 i hm st hst
    · rw [jobAt_updateJob_ne jobs i j _ hij] at hst
      exact h.pf_st t1 j hm st hst

/-- Appending a fresh job with no stage-start stamps preserves `QueueOk`. -/
theorem QueueOk.push {t : ℝ} {q : List SimEvent} {jobs : List Job}
    (h : QueueOk t q jobs) (nj : Job) (h1 : nj.mouldingStartTime = none)
    (h2 : nj.inspectionStartTime = none) (h3 : nj.packagingStartTime = none) :
    QueueOk t q (jobs ++ [nj]) := by
  have key : ∀ j : ℕ,
      (jobAt (jobs ++ [nj]) j).mouldingStartTime = (jobAt jobs j).mouldingStartTime ∨
      ((jobAt (jobs ++ [nj]) j).mouldingStartTime = none ∧
       (jobAt (jobs ++ [nj]) j).inspectionStartTime = none ∧
       (jobAt (jobs ++ [nj]) j).packagingStartTime = none) := by
    intro j
    rcases Nat.lt_or_ge j jobs.length with hlt | hge
    · rw [jobAt_append_lt jobs nj j hlt]
      exact Or.inl rfl
    · rcases Nat.eq_or_lt_of_le hge with heq | hlt2
      · rw [← heq, jobAt_append_self]
        exact Or.inr ⟨h1, h2, h3⟩
      · rw [jobAt_oob (jobs ++ [nj]) j (by
          rw [List.length_append, List.length_singleton]
          omega)]
        exact Or.inr ⟨rfl, rfl, rfl⟩
  have key2 : ∀ j : ℕ,
      ((jobAt (jobs ++ [nj]) j).mouldingStartTime = (jobAt jobs j).mouldingStartTime ∧
       (jobAt (jobs ++ [nj]) j).inspectionStartTime = (jobAt jobs j).inspectionStartTime ∧
       (jobAt (jobs ++ [nj]) j).packagingStartTime = (jobAt jobs j).packagingStartTime) ∨
      ((jobAt (jobs ++ [nj]) j).mouldingStartTime = none ∧
       (jobAt (jobs ++ [nj]) j).inspectionStartTime = none ∧
       (jobAt (jobs ++ [nj]) j).packagingStartTime = none) := by
    intro j
    rcases Nat.lt_or_ge j jobs.length with hlt | hge
    · rw [jobAt_append_lt jobs nj j hlt]
      exact Or.inl ⟨rfl, rfl, rfl⟩
    · rcases Nat.eq_or_lt_of_le hge with heq | hlt2
      · rw [← heq, jobAt_append_self]
        exact Or.inr ⟨h1, h2, h3⟩
      · rw [jobAt_oob (jobs ++ [nj]) j (by
          rw [List.length_append, List.length_singleton]
          omega)]
        exact Or.inr ⟨rfl, rfl, rfl⟩
  refine ⟨h.sortedq, h.future, ?_, ?_, ?_⟩
  · intro t1 j hm st hst
    rcases key2 j with ⟨he, _, _⟩ | ⟨he, _, _⟩
    · exact h.mf_st t1 j hm st (he ▸ hst)
    · rw [he] at hst
      cases hst
  · intro t1 j hm st hst
    rcases key2 j with ⟨_, he, _⟩ | ⟨_, he, _⟩
    · exact h.if_st t1 j hm st (he ▸ hst)
    · rw [he] at hst
      cases hst
  · intro t1 j hm st hst
    rcases key2 j with ⟨_, _, he⟩ | ⟨_, _, he⟩
    · exact h.pf_st t1 j hm st (he ▸ hst)
    · rw [he] at hst
      cases hst

/-- Reading a field that an arena update leaves untouched. -/
theorem jobAt_field_frame (jobs : List Job) (i j : ℕ) (f : Job → Job)
    (g : Job → Option ℝ) (hf : ∀ jb, g (f jb) = g jb) :
    g (jobAt (updateJob jobs i f) j) = g (jobAt jobs j) := by
  by_cases hij : i = j
  · subst hij
    rcases Nat.lt_or_ge i jobs.length with hlt | hge
    · rw [jobAt_updateJob_self _ _ _ hlt, hf]
    · rw [updateJob_oob _ _ _ hge]
  · rw [jobAt_updateJob_ne _ _ _ _ hij]

/-! ### The busy-time invariant, one handler at a time -/

/-- Starting a job on a moulding machine: stamp the start time and schedule the
matching finish event. -/
theorem qok_mf_start {t : ℝ} {q : List SimEvent} {jobs : List Job}
    (h : QueueOk t q jobs) (k : ℕ) (p : ℝ) (hp : 0 ≤ p) :
    QueueOk t (schedule (.mouldingFinish (t + p) k) q)
      (updateJob jobs k fun jb => { jb with mouldingStartTime := some t }) := by
  apply QueueOk.schedule_mf (h.stamp_mould k) _ _ (le_add_of_nonneg_right hp)
  intro st hst
  rcases Nat.lt_or_ge k jobs.length with hlt | hge
  · rw [jobAt_updateJob_self jobs k _ hlt] at hst
    change some t = some st at hst
    injection hst with hts
    subst hts
    exact le_add_of_nonneg_right hp
  · rw [jobAt_oob _ k (by rw [updateJob_length]; exact hge)] at hst
    simp [defaultJob] at hst

/-- Starting a job on an inspection station. -/
theorem qok_if_start {t : ℝ} {q : List SimEvent} {jobs : List Job}
    (h : QueueOk t q jobs) (k : ℕ) (p : ℝ) (hp : 0 ≤ p) :
    QueueOk t (schedule (.inspectionFinish (t + p) k) q)
      (updateJob jobs k fun jb => { jb with inspectionStartTime := some t }) := by
  apply QueueOk.schedule_if (h.stamp_insp k) _ _ (le_add_of_nonneg_right hp)
  intro st hst
  rcases Nat.lt_or_ge k jobs.length with hlt | hge
  · rw [jobAt_updateJob_self jobs k _ hlt] at hst
    change some t = some st at hst
    injection hst with hts
    subst hts
    exact le_add_of_nonneg_right hp
  · rw [jobAt_oob _ k (by rw [updateJob_length]; exact hge)] at hst
    simp [defaultJob] at hst

/-- Starting a job on a packaging machine. -/
theorem qok_pf_start {t : ℝ} {q : List SimEvent} {jobs : List Job}
    (h : QueueOk t q jobs) (k : ℕ) (p : ℝ) (hp : 0 ≤ p) :
    QueueOk t (schedule (.packagingFinish (t + p) k) q)
      (updateJob jobs k fun jb => { jb with packagingStartTime := some t }) := by
  apply QueueOk.schedule_pf (h.stamp_pack k) _ _ (le_add_of_nonneg_right hp)
  intro st hst
  rcases Nat.lt_or_ge k jobs.length with hlt | hge
  · rw [jobAt_updateJob_self jobs k _ hlt] at hst
    change some t = some st at hst
    injection hst with hts
    subst hts
    exact le_add_of_nonneg_right hp
  · rw [jobAt_oob _ k (by rw [updateJob_length]; exact hge)] at hst
    simp [defaultJob] at hst

theorem invBusy_handleArrival (cfg : SimulationConfig) (t : ℝ) (s : SimState)
    (hqok : QueueOk t s.queue s.jobs)
    (hbM : 0 ≤ s.totalMouldingBusyTime) (hbI : 0 ≤ s.totalInspectionBusyTime)
    (hbP : 0 ≤ s.totalPackagingBusyTime) (hct : s.currentTime = t) :
    InvBusy (handleArrival cfg t s) := by
  unfold handleArrival
  dsimp only
  split
  all_goals split
  all_goals refine ⟨?_, hbM, hbI, hbP⟩
  all_goals show QueueOk s.currentTime _ _
  all_goals rw [hct]
  all_goals first
    | exact qok_mf_start ((hqok.push _ rfl rfl rfl).schedule_arrival _) _ _
        (procTime_nonneg _ _ _)
    | exact qok_mf_start (hqok.push _ rfl rfl rfl) _ _ (procTime_nonneg _ _ _)
    | exact (hqok.push _ rfl rfl rfl).schedule_arrival _
    | exact hqok.push _ rfl rfl rfl

theorem invBusy_handleMouldingFinish (cfg : SimulationConfig) (t : ℝ) (j : ℕ)
    (s : SimState) (hqok : QueueOk t s.queue s.jobs)
    (hhead : ∀ st, (jobAt s.jobs j).mouldingStartTime = some st → st ≤ t)
    (hbM : 0 ≤ s.totalMouldingBusyTime) (hbI : 0 ≤ s.totalInspectionBusyTime)
    (hbP : 0 ≤ s.totalPackagingBusyTime) (hct : s.currentTime = t) :
    InvBusy (handleMouldingFinish cfg t j s) := by
  have hq1 : QueueOk t s.queue
      (updateJob s.jobs j fun jb => { jb with mouldingEndTime := some t }) :=
    hqok.update_frame j _ (fun _ => rfl) (fun _ => rfl) (fun _ => rfl)
  have hstamp1 : ((jobAt (updateJob s.jobs j fun jb =>
      { jb with mouldingEndTime := some t }) j).mouldingStartTime) =
      (jobAt s.jobs j).mouldingStartTime :=
    jobAt_field_frame s.jobs j j _ (fun jb => jb.mouldingStartTime) (fun _ => rfl)
  unfold handleMouldingFinish
  dsimp only
  by_cases htr : truthy (jobAt (updateJob s.jobs j fun jb =>
      { jb with mouldingEndTime := some t }) j).mouldingStartTime
  · have hbusy : 0 ≤ s.totalMouldingBusyTime +
        (t - ((jobAt (updateJob s.jobs j fun jb =>
          { jb with mouldingEndTime := some t }) j).mouldingStartTime).getD 0) := by
      obtain ⟨x, hx, hxne⟩ := htr
      have hxt := hhead x (hstamp1 ▸ hx)
      rw [hx]
      simp only [Option.getD_some]
      linarith
    rw [if_pos htr]
    dsimp only
    cases hmq : s.mouldingQueue with
    | nil =>
      dsimp only
      by_cases h2 : 0 < s.inspectionFree
      · rw [if_pos h2]
        refine ⟨?_, hbusy, hbI, hbP⟩
        show QueueOk s.currentTime _ _
        rw [hct]
        exact qok_if_start hq1 j _ (procTime_nonneg _ _ _)
      · rw [if_neg h2]
        refine ⟨?_, hbusy, hbI, hbP⟩
        show QueueOk s.currentTime _ _
        rw [hct]
        exact hq1
    | cons k ks =>
      dsimp only
      by_cases h2 : 0 < s.inspectionFree
      · rw [if_pos h2]
        refine ⟨?_, hbusy, hbI, hbP⟩
        show QueueOk s.currentTime _ _
        rw [hct]
        exact qok_if_start (qok_mf_start hq1 k _ (procTime_nonneg _ _ _)) j _
          (procTime_nonneg _ _ _)
      · rw [if_neg h2]
        refine ⟨?_, hbusy, hbI, hbP⟩
        show QueueOk s.currentTime _ _
        rw [hct]
        exact qok_mf_start hq1 k _ (procTime_nonneg _ _ _)
  · rw [if_neg htr]
    dsimp only
    cases hmq : s.mouldingQueue with
    | nil =>
      dsimp only
      by_cases h2 : 0 < s.inspectionFree
      · rw [if_pos h2]
        refine ⟨?_, hbM, hbI, hbP⟩
        show QueueOk s.currentTime _ _
        rw [hct]
        exact qok_if_start hq1 j _ (procTime_nonneg _ _ _)
      · rw [if_neg h2]
        refine ⟨?_, hbM, hbI, hbP⟩
        show QueueOk s.currentTime _ _
        rw [hct]
        exact hq1
    | cons k ks =>
      dsimp only
      by_cases h2 : 0 < s.inspectionFree
      · rw [if_pos h2]
        refine ⟨?_, hbM, hbI, hbP⟩
        show QueueOk s.currentTime _ _
        rw [hct]
        exact qok_if_start (qok_mf_start hq1 k _ (procTime_nonneg _ _ _)) j _
          (procTime_nonneg _ _ _)
      · rw [if_neg h2]
        refine ⟨?_, hbM, hbI, hbP⟩
        show QueueOk s.currentTime _ _
        rw [hct]
        exact qok_mf_start hq1 k _ (procTime_nonneg _ _ _)

theorem invBusy_handleInspectionFinish (cfg : SimulationConfig) (t : ℝ) (j : ℕ)
    (s : SimState) (hqok : QueueOk t s.queue s.jobs)
    (hhead : ∀ st, (jobAt s.jobs j).inspectionStartTime = some st → st ≤ t)
    (hbM : 0 ≤ s.totalMouldingBusyTime) (hbI : 0 ≤ s.totalInspectionBusyTime)
    (hbP : 0 ≤ s.totalPackagingBusyTime) (hct : s.currentTime = t) :
    InvBusy (handleInspectionFinish cfg t j s) := by
  have hq1 : QueueOk t s.queue
      (updateJob s.jobs j fun jb => { jb with inspectionEndTime := some t }) :=
    hqok.update_frame j _ (fun _ => rfl) (fun _ => rfl) (fun _ => rfl)
  have hstamp1 : ((jobAt (updateJob s.jobs j fun jb =>
      { jb with inspectionEndTime := some t }) j).inspectionStartTime) =
      (jobAt s.jobs j).inspectionStartTime :=
    jobAt_field_frame s.jobs j j _ (fun jb => jb.inspectionStartTime) (fun _ => rfl)
  unfold handleInspectionFinish
  dsimp only
  by_cases htr : truthy (jobAt (updateJob s.jobs j fun jb =>
      { jb with inspectionEndTime := some t }) j).inspectionStartTime
  · have hbusy : 0 ≤ s.totalInspectionBusyTime +
        (t - ((jobAt (updateJob s.jobs j fun jb =>
          { jb with inspectionEndTime := some t }) j).inspectionStartTime).getD 0) := by
      obtain ⟨x, hx, hxne⟩ := htr
      have hxt := hhead x (hstamp1 ▸ hx)
      rw [hx]
      simp only [Option.getD_some]
      linarith
    rw [if_pos htr]
    dsimp only
    cases hmq : s.inspectionQueue with
    | nil =>
      dsimp only
      by_cases h2 : 0 < s.packagingFree
      · rw [if_pos h2]
        refine ⟨?_, hbM, hbusy, hbP⟩
        show QueueOk s.currentTime _ _
        rw [hct]
        exact qok_pf_start hq1 j _ (procTime_nonneg _ _ _)
      · rw [if_neg h2]
        refine ⟨?_, hbM, hbusy, hbP⟩
        show QueueOk s.currentTime _ _
        rw [hct]
        exact hq1
    | cons k ks =>
      dsimp only
      by_cases h2 : 0 < s.packagingFree
      · rw [if_pos h2]
        refine ⟨?_, hbM, hbusy, hbP⟩
        show QueueOk s.currentTime _ _
        rw [hct]
        exact qok_pf_start (qok_if_start hq1 k _ (procTime_nonneg _ _ _)) j _
          (procTime_nonneg _ _ _)
      · rw [if_neg h2]
        refine ⟨?_, hbM, hbusy, hbP⟩
        show QueueOk s.currentTime _ _
        rw [hct]
        exact qok_if_start hq1 k _ (procTime_nonneg _ _ _)
  · rw [if_neg htr]
    dsimp only
    cases hmq : s.inspectionQueue with
    | nil =>
      dsimp only
      by_cases h2 : 0 < s.packagingFree
      · rw [if_pos h2]
        refine ⟨?_, hbM, hbI, hbP⟩
        show QueueOk s.currentTime _ _
        rw [hct]
        exact qok_pf_start hq1 j _ (procTime_nonneg _ _ _)
      · rw [if_neg h2]
        refine ⟨?_, hbM, hbI, hbP⟩
        show QueueOk s.currentTime _ _
        rw [hct]
        exact hq1
    | cons k ks =>
      dsimp only
      by_cases h2 : 0 < s.packagingFree
      · rw [if_pos h2]
        refine ⟨?_, hbM, hbI, hbP⟩
        show QueueOk s.currentTime _ _
        rw [hct]
        exact qok_pf_start (qok_if_start hq1 k _ (procTime_nonneg _ _ _)) j _
          (procTime_nonneg _ _ _)
      · rw [if_neg h2]
        refine ⟨?_, hbM, hbI, hbP⟩
        show QueueOk s.currentTime _ _
        rw [hct]
        exact qok_if_start hq1 k _ (procTime_nonneg _ _ _)

theorem invBusy_handlePackagingFinish (cfg : SimulationConfig) (t : ℝ) (j : ℕ)
    (s : SimState) (hqok : QueueOk t s.queue s.jobs)
    (hhead : ∀ st, (jobAt s.jobs j).packagingStartTime = some st → st ≤ t)
    (hbM : 0 ≤ s.totalMouldingBusyTime) (hbI : 0 ≤ s.totalInspectionBusyTime)
    (hbP : 0 ≤ s.totalPackagingBusyTime) (hct : s.currentTime = t) :
    InvBusy (handlePackagingFinish cfg t j s) := by
  have hq1 : QueueOk t s.queue
      (updateJob s.jobs j fun jb => { jb with packagingEndTime := some t }) :=
    hqok.update_frame j _ (fun _ => rfl) (fun _ => rfl) (fun _ => rfl)
  have hq2 : QueueOk t s.queue
      (updateJob (updateJob s.jobs j fun jb => { jb with packagingEndTime := some t })
        j fun jb => { jb with finished := true }) :=
    hq1.update_frame j _ (fun _ => rfl) (fun _ => rfl) (fun _ => rfl)
  have hstamp1 : ((jobAt (updateJob s.jobs j fun jb =>
      { jb with packagingEndTime := some t }) j).packagingStartTime) =
      (jobAt s.jobs j).packagingStartTime :=
    jobAt_field_frame s.jobs j j _ (fun jb => jb.packagingStartTime) (fun _ => rfl)
  unfold handlePackagingFinish
  dsimp only
  by_cases htr : truthy (jobAt (updateJob s.jobs j fun jb =>
      { jb with packagingEndTime := some t }) j).packagingStartTime
  · have hbusy : 0 ≤ s.totalPackagingBusyTime +
        (t - ((jobAt (updateJob s.jobs j fun jb =>
          { jb with packagingEndTime := some t }) j).packagingStartTime).getD 0) := by
      obtain ⟨x, hx, hxne⟩ := htr
      have hxt := hhead x (hstamp1 ▸ hx)
      rw [hx]
      simp only [Option.getD_some]
      linarith
    rw [if_pos htr]
    dsimp only
    cases hmq : s.packagingQueue with
    | nil =>
      refine ⟨?_, hbM, hbI, hbusy⟩
      show QueueOk s.currentTime _ _
      rw [hct]
      exact hq2
    | cons k ks =>
      dsimp only
      refine ⟨?_, hbM, hbI, hbusy⟩
      show QueueOk s.currentTime _ _
      rw [hct]
      exact qok_pf_start hq2 k _ (procTime_nonneg _ _ _)
  · rw [if_neg htr]
    dsimp only
    cases hmq : s.packagingQueue with
    | nil =>
      refine ⟨?_, hbM, hbI, hbP⟩
      show QueueOk s.currentTime _ _
      rw [hct]
      exact hq2
    | cons k ks =>
      dsimp only
      refine ⟨?_, hbM, hbI, hbP⟩
      show QueueOk s.currentTime _ _
      rw [hct]
      exact qok_pf_start hq2 k _ (procTime_nonneg _ _ _)

theorem invBusy_step (cfg : SimulationConfig) (e : SimEvent) (rest : List SimEvent)
    (s : SimState) (hq : s.queue = e :: rest) (h : InvBusy s) :
    InvBusy (processEvent cfg e { s with queue := rest }) := by
  have hq0 : QueueOk s.currentTime (e :: rest) s.jobs := by
    rw [← hq]
    exact h.qok
  have htail : QueueOk e.time rest s.jobs := hq0.tail
  cases e with
  | arrival t =>
    exact invBusy_handleArrival cfg t _ htail h.busyM h.busyI h.busyP rfl
  | mouldingFinish t k =>
    exact invBusy_handleMouldingFinish cfg t k _ htail
      (hq0.mf_st t k (List.mem_cons_self _ _)) h.busyM h.busyI h.busyP rfl
  | inspectionFinish t k =>
    exact invBusy_handleInspectionFinish cfg t k _ htail
      (hq0.if_st t k (List.mem_cons_self _ _)) h.busyM h.busyI h.busyP rfl
  | packagingFinish t k =>
    exact invBusy_handlePackagingFinish cfg t k _ htail
      (hq0.pf_st t k (List.mem_cons_self _ _)) h.busyM h.busyI h.busyP rfl

theorem invBusy_init (cfg : SimulationConfig) : InvBusy (initState cfg) := by
  have h0 : QueueOk (0 : ℝ) [] ([] : List Job) :=
    ⟨List.Pairwise.nil, by simp, by simp, by simp, by simp⟩
  exact ⟨h0.schedule_arrival _, le_refl 0, le_refl 0, le_refl 0⟩

theorem invBusy_final (cfg : SimulationConfig) (fuel : ℕ) :
    InvBusy (finalState cfg fuel) :=
  runLoop_preserve (fun e rest s hq _ h => invBusy_step cfg e rest s hq h) fuel _
    (invBusy_init cfg)

theorem safeDiv_nonneg (a b : ℝ) (ha : 0 ≤ a) (hb : 0 ≤ b) : 0 ≤ safeDiv a b := by
  unfold safeDiv
  split_ifs with h
  · exact le_refl 0
  · exact div_nonneg ha hb

/-! ### Positivity and sign facts for the exponential draws -/

theorem lnf_nonneg (a : ℕ) (h : a < 233280) : 0 ≤ lnf a := by
  have hx := one_sub_div_pos a h
  have h1 : 1 - (a : ℝ) / 233280 ≤ 1 := by
    have : (0:ℝ) ≤ (a : ℝ) / 233280 := by positivity
    linarith
  have := Real.log_nonpos (le_of_lt hx) h1
  rw [lnf_eq]
  linarith

theorem lnf_pos (a : ℕ) (h0 : a ≠ 0) (h : a < 233280) : 0 < lnf a := by
  have hx := one_sub_div_pos a h
  have ha : (0:ℝ) < (a : ℝ) / 233280 := by
    have : 0 < a := Nat.pos_of_ne_zero h0
    positivity
  have h1 : 1 - (a : ℝ) / 233280 < 1 := by linarith
  have := Real.log_neg hx h1
  rw [lnf_eq]
  linarith

theorem expDraw_nonpos (mean : ℝ) (s : ℕ) (hm : mean ≤ 0) : (expDraw mean s).1 ≤ 0 := by
  have := expDraw_factor_nonneg s
  unfold expDraw
  dsimp only
  nlinarith

theorem expDraw_pos (mean : ℝ) (s : ℕ) (hm : 0 < mean) (hs : lcgNext s ≠ 0) :
    0 < (expDraw mean s).1 :=
  mul_pos (lnf_pos (lcgNext s) hs (lcgNext_lt s)) hm

/-! ### Arena read helpers for stamp fields -/

/-- Reading a stamp that a fresh pushed job does not carry. -/
theorem read_push {jobs : List Job} {nj : Job} {k : ℕ} {g : Job → Option ℝ} {x : ℝ}
    (hg : g nj = none) (hgd : g defaultJob = none)
    (h : g (jobAt (jobs ++ [nj]) k) = some x) : g (jobAt jobs k) = some x := by
  rcases Nat.lt_or_ge k jobs.length with hlt | hge
  · rw [jobAt_append_lt jobs nj k hlt] at h
    exact h
  · rcases Nat.eq_or_lt_of_le hge with heq | hlt2
    · rw [← heq, jobAt_append_self, hg] at h
      cases h
    · rw [jobAt_oob (jobs ++ [nj]) k (by
        rw [List.length_append, List.length_singleton]
        omega), hgd] at h
      cases h

/-- A stamp set in a job survives pushing a fresh job. -/
theorem read_push_fwd {jobs : List Job} {nj : Job} {k : ℕ} {g : Job → Option ℝ} {x : ℝ}
    (hgd : g defaultJob = none) (h : g (jobAt jobs k) = some x) :
    g (jobAt (jobs ++ [nj]) k) = some x := by
  rcases Nat.lt_or_ge k jobs.length with hlt | hge
  · rw [jobAt_append_lt jobs nj k hlt]
    exact h
  · rw [jobAt_oob jobs k hge, hgd] at h
    cases h

/-- Reading a stamp through an update that does not touch it. -/
theorem read_frame {jobs : List Job} {i k : ℕ} {f : Job → Job} {g : Job → Option ℝ}
    {x : ℝ} (hf : ∀ jb, g (f jb) = g jb)
    (h : g (jobAt (updateJob jobs i f) k) = some x) : g (jobAt jobs k) = some x := by
  rw [jobAt_field_frame jobs i k f g hf] at h
  exact h

/-- A stamp survives an update that does not touch it. -/
theorem read_frame_fwd {jobs : List Job} {i k : ℕ} {f : Job → Job} {g : Job → Option ℝ}
    {x : ℝ} (hf : ∀ jb, g (f jb) = g jb) (h : g (jobAt jobs k) = some x) :
    g (jobAt (updateJob jobs i f) k) = some x := by
  rw [jobAt_field_frame jobs i k f g hf]
  exact h

/-- Reading a stamp through the very update that sets it. -/
theorem read_care {jobs : List Job} {i k : ℕ} {f : Job → Job} {g : Job → Option ℝ}
    {t x : ℝ} (hf : ∀ jb, g (f jb) = some t)
    (h : g (jobAt (updateJob jobs i f) k) = some x) :
    (x = t ∧ k = i ∧ i < jobs.length) ∨ g (jobAt jobs k) = some x := by
  by_cases hik : i = k
  · subst hik
    rcases Nat.lt_or_ge i jobs.length with hlt | hge
    · rw [jobAt_updateJob_self jobs i f hlt, hf] at h
      injection h with h1
      exact Or.inl ⟨h1.symm, rfl, hlt⟩
    · rw [updateJob_oob jobs i f hge] at h
      exact Or.inr h
  · rw [jobAt_updateJob_ne jobs i k f hik] at h
    exact Or.inr h

/-- The value read after the update that sets a stamp at an in-range index. -/
theorem read_self {jobs : List Job} {i : ℕ} {f : Job → Job} {g : Job → Option ℝ}
    {t : ℝ} (hf : ∀ jb, g (f jb) = some t) (hlt : i < jobs.length) :
    g (jobAt (updateJob jobs i f) i) = some t := by
  rw [jobAt_updateJob_self jobs i f hlt, hf]

/-- A stamp survives a same-field setting update, possibly replaced by the new
value. -/
theorem read_care_fwd {jobs : List Job} {i k : ℕ} {f : Job → Job} {g : Job → Option ℝ}
    {t x : ℝ} (hf : ∀ jb, g (f jb) = some t) (h : g (jobAt jobs k) = some x) :
    g (jobAt (updateJob jobs i f) k) = some x ∨
      g (jobAt (updateJob jobs i f) k) = some t := by
  by_cases hik : i = k
  · subst hik
    rcases Nat.lt_or_ge i jobs.length with hlt | hge
    · exact Or.inr (read_self hf hlt)
    · rw [updateJob_oob jobs i f hge]
      exact Or.inl h
  · rw [jobAt_updateJob_ne jobs i k f hik]
    exact Or.inl h

/-- The per-job degradation cost computed by the code agrees with the wording of
the claim for jobs whose set stamps are backed and non-zero. -/
theorem degradationOf_eq_claim (cfg : SimulationConfig) (j : Job)
    (hgood : ∀ x, j.inspectionStartTime = some x →
      x ≠ 0 ∧ ∃ y, j.mouldingEndTime = some y ∧ y ≠ 0) :
    degradationOf cfg j =
      (match j.inspectionStartTime with
       | some st =>
           max 0 ((st - j.mouldingEndTime.getD 0) - cfg.degradationThreshold) *
             cfg.degradationCostPerMinute
       | none => 0) := by
  cases hins : j.inspectionStartTime with
  | none =>
    unfold degradationOf waitInsp
    rw [if_neg (by
      rintro ⟨⟨x, hx, -⟩, -⟩
      rw [hins] at hx
      cases hx)]
  | some st =>
    obtain ⟨hstne, y, hy, hyne⟩ := hgood st hins
    unfold degradationOf waitInsp
    rw [if_pos ⟨⟨st, hins, hstne⟩, ⟨y, hy, hyne⟩⟩]
    dsimp only
    rw [hins, hy]
    rfl

/-! ### Configuration congruence: the single-run simulator ignores `replications` -/

theorem processEvent_erase_repl (c : SimulationConfig) (r : ℤ) (e : SimEvent) (s : SimState) :
    processEvent { c with replications := r } e s = processEvent c e s := by
  cases e <;> rfl

theorem runLoop_erase_repl (c : SimulationConfig) (r : ℤ) (fuel : ℕ) (s : SimState) :
    runLoop { c with replications := r } fuel s = runLoop c fuel s := by
  induction fuel generalizing s with
  | zero => rfl
  | succ n ih =>
    simp only [runLoop]
    cases hq : s.queue with
    | nil => rfl
    | cons e rest =>
      dsimp only
      by_cases h : s.currentTime < c.duration
      · rw [if_pos h, if_pos h, processEvent_erase_repl, ih]
      · rw [if_neg h, if_neg h]

theorem runSingle_erase_repl (c : SimulationConfig) (r : ℤ) (fuel : ℕ) :
    runSingleSimulation { c with replications := r } fuel = runSingleSimulation c fuel := by
  unfold runSingleSimulation finalState
  rw [runLoop_erase_repl]
  rfl

/-- The single-run simulator depends on every configuration field except
`replications`. -/
theorem runSingle_congr_except_repl (c1 c2 : SimulationConfig) (fuel : ℕ)
    (hdur : c1.duration = c2.duration)
    (hm : c1.mouldingMachines = c2.mouldingMachines)
    (hi : c1.inspectionStations = c2.inspectionStations)
    (hp : c1.packagingMachines = c2.packagingMachines)
    (ha : c1.arrivalIntervalMean = c2.arrivalIntervalMean)
    (hc : c1.degradationCostPerMinute = c2.degradationCostPerMinute)
    (ht : c1.degradationThreshold = c2.degradationThreshold)
    (hs : c1.seed = c2.seed) :
    runSingleSimulation c1 fuel = runSingleSimulation c2 fuel := by
  have h2 : c2 = { c1 with replications := c2.replications } := by
    cases c1
    cases c2
    simp_all
  rw [h2]
  exact (runSingle_erase_repl c1 c2.replications fuel).symm

theorem aggregateResults_single (r : SimulationStats) : aggregateResults [r] = r := rfl

/-! ### Claim theorems -/

/-- C1 is false as stated: with configuration `cfg1` (duration 1/10000, seed 0),
the loop processes an arrival whose timestamp is past the duration, and the run
clock ends beyond the duration. -/
theorem c1_counterexample :
    cfg1.duration < (finalState cfg1 2).currentTime ∧
    ∃ e ∈ (finalState cfg1 2).trace, cfg1.duration ≤ e.time := by
  rw [final_cfg1]
  constructor
  · rw [show S1.currentTime = A1 from rfl, show cfg1.duration = 1 / 10000 from rfl]
    linarith [A1_lb]
  · refine ⟨SimEvent.arrival A1, ?_, ?_⟩
    · rw [show S1.trace = [SimEvent.arrival A1] from rfl]
      exact List.mem_singleton_self _
    · rw [show (SimEvent.arrival A1).time = A1 from rfl,
        show cfg1.duration = 1 / 10000 from rfl]
      linarith [A1_lb]

/-- C1 (amended): the loop checks the clock before extracting the next event, so
every processed event except possibly the last has a timestamp strictly below the
configured duration, and the run clock always equals the timestamp of the last
processed event — it can therefore pass the duration by at most the overshoot of
that single final event, after which the loop stops. -/
theorem c1_amended_boundary (cfg : SimulationConfig) (fuel : ℕ) :
    (∀ e ∈ (finalState cfg fuel).trace.dropLast, e.time < cfg.duration) ∧
    (finalState cfg fuel).currentTime = traceLast (finalState cfg fuel).trace := by
  have h := invTrace_final cfg fuel
  exact ⟨h.trace_lt, h.ct_last⟩

/-- C2 is false as stated: with cfg2 (no moulding machines, duration 2, seed 0) a
single arrival is processed before the duration and never leaves the system; the
loop stops with an empty queue, the accumulated area misses the tail interval up
to the duration, so `avgWip * duration = 0` while the WIP integral over
`[0, duration]` equals `2 - A1 > 0`. -/
theorem c2_counterexample :
    (runSingleSimulation cfg2 2).avgWip * cfg2.duration ≠
      specWipIntegral cfg2.duration (finalState cfg2 2).trace := by
  have havg : (runSingleSimulation cfg2 2).avgWip =
      safeDiv (finalState cfg2 2).wipArea cfg2.duration := rfl
  rw [havg, final_cfg2]
  rw [show (S1q cfg2).wipArea = 0 from rfl,
    show (S1q cfg2).trace = [SimEvent.arrival A1] from rfl]
  rw [show safeDiv 0 cfg2.duration = 0 from by
    unfold safeDiv
    split_ifs <;> simp]
  rw [zero_mul]
  simp only [specWipIntegral, specWipIntegralAux]
  rw [show (SimEvent.arrival A1).time = A1 from rfl,
    show wipDelta (SimEvent.arrival A1) = 1 from rfl,
    show cfg2.duration = 2 from rfl]
  rw [min_eq_left (show A1 ≤ (2:ℝ) by linarith [A1_ub])]
  intro hcontra
  have h1 : min (0:ℝ) 2 = 0 := by norm_num
  rw [h1] at hcontra
  push_cast at hcontra
  linarith [A1_ub]

/-- C2 (amended): `avgWip * duration` equals the WIP area accumulated by the loop,
which is the integral of the instantaneous WIP step curve over
`[0, lastEventTime]` — the interval up to the last processed event, not up to
`duration`; instantaneous WIP starts at 0, is always ≥ 0, changes by exactly +1 at
each processed Arrival and −1 at each processed PackagingFinish, and each elapsed
interval contributes with the pre-transition WIP value (the trace-derived area
`traceArea` is defined exactly that way). -/
theorem c2_amended_wip_conservation (cfg : SimulationConfig) (fuel : ℕ) :
    (runSingleSimulation cfg fuel).avgWip * cfg.duration =
      (finalState cfg fuel).wipArea ∧
    (finalState cfg fuel).wipArea = traceArea (finalState cfg fuel).trace ∧
    (finalState cfg fuel).currentWip = wipOf (finalState cfg fuel).trace ∧
    (∀ k : ℕ, 0 ≤ wipOf ((finalState cfg fuel).trace.take k)) ∧
    (finalState cfg fuel).lastEventTime = traceLast (finalState cfg fuel).trace := by
  have h := invWip_final cfg fuel
  refine ⟨?_, h.area, h.wip_trace, h.wip_prefix, h.let_last⟩
  have havg : (runSingleSimulation cfg fuel).avgWip =
      safeDiv (finalState cfg fuel).wipArea cfg.duration := rfl
  rw [havg]
  unfold safeDiv
  by_cases hd : cfg.duration = 0
  · rw [if_pos hd, hd, mul_zero]
    have hfin : finalState cfg fuel = initState cfg := runLoop_exit cfg fuel _ (by
      rw [show (initState cfg).currentTime = 0 from rfl, hd]
      exact lt_irrefl 0)
    rw [hfin]
    rfl
  · rw [if_neg hd]
    rw [div_mul_cancel₀ _ hd]

/-- C3 is false as stated: configuration `cfg3` has positive duration (2 minutes)
and one server at every stage, yet the reported moulding utilization exceeds 1 —
the single overshoot event processed past the duration boundary books a full
service time of about 15 minutes of busy time against only 2 minutes of
capacity-time, so `busyTime / (duration * serverCount)` is about 7.5. -/
theorem c3_counterexample :
    0 < cfg3.duration ∧ 0 < cfg3.mouldingMachines ∧ 0 < cfg3.inspectionStations ∧
    0 < cfg3.packagingMachines ∧
    1 < (runSingleSimulation cfg3 3).machineUtilization.moulding := by
  refine ⟨by norm_num [cfg3], by norm_num [cfg3], by norm_num [cfg3],
    by norm_num [cfg3], ?_⟩
  have hrun : (runSingleSimulation cfg3 3).machineUtilization.moulding =
      safeDiv (finalState cfg3 3).totalMouldingBusyTime
        (cfg3.duration * (cfg3.mouldingMachines : ℝ)) := rfl
  rw [hrun, final_cfg3]
  rw [show (S2).totalMouldingBusyTime = P1 from rfl]
  rw [show cfg3.duration * ((cfg3.mouldingMachines : ℕ) : ℝ) = 2 by norm_num [cfg3]]
  rw [safeDiv, if_neg (by norm_num)]
  linarith [P1_lb]

/-- C3 (amended): each stage's reported utilization
`busyTime / (duration * serverCount)` is non-negative for every configuration with
non-negative duration (the busy-time accumulators never go negative because every
recorded stage start precedes its matching finish event), but it is not bounded
above by 1 — the final overshoot event can book service time beyond the horizon,
as the counterexample shows. -/
theorem c3_amended_utilization_nonneg (cfg : SimulationConfig) (fuel : ℕ)
    (hd : 0 ≤ cfg.duration) :
    0 ≤ (runSingleSimulation cfg fuel).machineUtilization.moulding ∧
    0 ≤ (runSingleSimulation cfg fuel).machineUtilization.inspection ∧
    0 ≤ (runSingleSimulation cfg fuel).machineUtilization.packaging := by
  obtain ⟨_, hbM, hbI, hbP⟩ := invBusy_final cfg fuel
  exact ⟨safeDiv_nonneg _ _ hbM (mul_nonneg hd (Nat.cast_nonneg _)),
    safeDiv_nonneg _ _ hbI (mul_nonneg hd (Nat.cast_nonneg _)),
    safeDiv_nonneg _ _ hbP (mul_nonneg hd (Nat.cast_nonneg _))⟩

theorem c3_amended_utilization_nonneg_witness :
    0 ≤ cfg3.duration ∧
    0 ≤ (runSingleSimulation cfg3 3).machineUtilization.moulding :=
  ⟨by norm_num [cfg3],
    (c3_amended_utilization_nonneg cfg3 3 (by norm_num [cfg3])).1⟩

/-- C4: pending events sharing a timestamp are removed and processed
deterministically in stable insertion order: a queue built by `schedule` is sorted
by timestamp, is a permutation of the scheduled events, and — restricted to any
fixed timestamp — lists exactly the events scheduled at that timestamp, in the
order `schedule` was called for them; the loop removes events from the front, so
equal-timestamp events are processed in that order. -/
theorem c4_stable_insertion_order (es : List SimEvent) :
    ((buildQueue es).Pairwise fun a b => timeLE a b = true) ∧
    List.Perm (buildQueue es) es ∧
    ∀ t : ℝ, (buildQueue es).filter (fun x => decide (x.time = t)) =
      es.filter (fun x => decide (x.time = t)) := by
  obtain ⟨h1, h2, h3⟩ := foldl_schedule_props es [] List.Pairwise.nil
  refine ⟨h1, ?_, ?_⟩
  · simpa using h2
  · intro t
    simpa using h3 t

/-- C9: every uniform draw of the LCG stream lies in `[0,1)` and the state stays a
non-negative integer below the modulus 233280; consequently `choice` on any
non-empty list — in particular the fixed four-element product-type list — computes
an in-bounds index and returns an element of the list. -/
theorem c9_random_stream_safety {α : Type} (seed n : ℕ) (l : List α) (d : α)
    (hl : l ≠ []) :
    lcgNext^[n + 1] seed < 233280 ∧
    (0 ≤ lcgUniform (lcgNext^[n] seed) ∧ lcgUniform (lcgNext^[n] seed) < 1) ∧
    (choiceIdx l.length (lcgNext^[n] seed)).1 < l.length ∧
    l.getD (choiceIdx l.length (lcgNext^[n] seed)).1 d ∈ l ∧
    productTypes.getD (choiceIdx 4 (lcgNext^[n] seed)).1 ProductType.typeA ∈ productTypes := by
  have hlen : 0 < l.length := List.length_pos.mpr hl
  have hidx := choiceIdx_lt l.length (lcgNext^[n] seed) hlen
  have hidx4 : (choiceIdx 4 (lcgNext^[n] seed)).1 < 4 :=
    choiceIdx_lt 4 (lcgNext^[n] seed) (by norm_num)
  refine ⟨?_, ⟨lcgUniform_nonneg _, lcgUniform_lt_one _⟩, hidx, ?_, ?_⟩
  · rw [Function.iterate_succ_apply']
    exact lcgNext_lt _
  · rw [List.getD_eq_getElem l d hidx]
    exact List.getElem_mem hidx
  · have h4 : (choiceIdx 4 (lcgNext^[n] seed)).1 < productTypes.length := by
      simpa [productTypes] using hidx4
    rw [List.getD_eq_getElem _ _ h4]
    exact List.getElem_mem h4

/-- Witness for C9 at seed 5, third draw, with the product-type list. -/
theorem c9_random_stream_safety_witness :
    productTypes ≠ [] ∧
    (lcgNext^[2 + 1] 5 < 233280 ∧
     (0 ≤ lcgUniform (lcgNext^[2] 5) ∧ lcgUniform (lcgNext^[2] 5) < 1) ∧
     (choiceIdx productTypes.length (lcgNext^[2] 5)).1 < productTypes.length ∧
     productTypes.getD (choiceIdx productTypes.length (lcgNext^[2] 5)).1 ProductType.typeA
       ∈ productTypes ∧
     productTypes.getD (choiceIdx 4 (lcgNext^[2] 5)).1 ProductType.typeA ∈ productTypes) :=
  ⟨by simp [productTypes],
   c9_random_stream_safety 5 2 productTypes ProductType.typeA (by simp [productTypes])⟩

/-- C5: replication `k` (0-indexed) of a multi-replication run is executed with seed
`baseSeed + k`, and its per-run statistics are exactly those returned by `run` on the
same configuration with `seed = baseSeed + k` and `replications = 1`. -/
theorem c5_replication_seed_derivation (cfg : SimulationConfig) (fuel k : ℕ)
    (hk : k < (max 1 cfg.replications).toNat) :
    (replicationResults cfg fuel)[k]? =
      some (run { cfg with seed := cfg.seed + k, replications := 1 } fuel) := by
  unfold replicationResults
  rw [List.getElem?_map, List.getElem?_range hk]
  unfold run replicationResults
  have hr1 : List.range 1 = [0] := rfl
  have h1 : (max 1 (1 : ℤ)).toNat = 1 := rfl
  have h2 : ({ cfg with seed := cfg.seed + k, replications := 1 } :
      SimulationConfig).replications = 1 := rfl
  rw [h2, h1]
  simp only [hr1, List.map_cons, List.map_nil, aggregateResults_single,
    Option.map_some']
  congr 1
  exact runSingle_congr_except_repl _ _ fuel rfl rfl rfl rfl rfl rfl rfl (by simp)

/-- Witness for C5: replication 1 of a two-replication configuration. -/
theorem c5_replication_seed_derivation_witness :
    1 < (max 1 cfgB.replications).toNat ∧
    (replicationResults cfgB 7)[1]? =
      some (run { cfgB with seed := cfgB.seed + 1, replications := 1 } 7) :=
  ⟨by decide, c5_replication_seed_derivation cfgB 7 1 (by decide)⟩

/-- C7: `run` is a deterministic pure function of the configuration — two invocations
on configurations that agree on every field (duration, machine counts, arrival mean,
degradation parameters, replication count and seed) return identical statistics. -/
theorem c7_run_deterministic (c1 c2 : SimulationConfig) (fuel : ℕ)
    (h : c1.duration = c2.duration ∧ c1.mouldingMachines = c2.mouldingMachines ∧
         c1.inspectionStations = c2.inspectionStations ∧
         c1.packagingMachines = c2.packagingMachines ∧
         c1.arrivalIntervalMean = c2.arrivalIntervalMean ∧
         c1.degradationCostPerMinute = c2.degradationCostPerMinute ∧
         c1.degradationThreshold = c2.degradationThreshold ∧
         c1.replications = c2.replications ∧ c1.seed = c2.seed) :
    run c1 fuel = run c2 fuel := by
  obtain ⟨h1, h2, h3, h4, h5, h6, h7, h8, h9⟩ := h
  have : c1 = c2 := by
    cases c1
    cases c2
    simp_all
  rw [this]

/-- Witness for C7: two invocations on the default configuration agree. -/
theorem c7_run_deterministic_witness :
    (cfgA.duration = cfgA.duration ∧ cfgA.mouldingMachines = cfgA.mouldingMachines ∧
     cfgA.inspectionStations = cfgA.inspectionStations ∧
     cfgA.packagingMachines = cfgA.packagingMachines ∧
     cfgA.arrivalIntervalMean = cfgA.arrivalIntervalMean ∧
     cfgA.degradationCostPerMinute = cfgA.degradationCostPerMinute ∧
     cfgA.degradationThreshold = cfgA.degradationThreshold ∧
     cfgA.replications = cfgA.replications ∧ cfgA.seed = cfgA.seed) ∧
    run cfgA 3 = run cfgA 3 :=
  ⟨⟨rfl, rfl, rfl, rfl, rfl, rfl, rfl, rfl, rfl⟩,
   c7_run_deterministic cfgA cfgA 3 ⟨rfl, rfl, rfl, rfl, rfl, rfl, rfl, rfl, rfl⟩⟩

/-- C8: with `replications = 1`, `run` returns the single run verbatim, and the two
confidence intervals degenerate to the point estimates of that run. -/
theorem c8_single_replication_identity (cfg : SimulationConfig) (fuel : ℕ)
    (h : cfg.replications = 1) :
    run cfg fuel = runSingleSimulation cfg fuel ∧
    (run cfg fuel).leadTimeCI =
      { mean := (run cfg fuel).avgLeadTime, lower := (run cfg fuel).avgLeadTime,
        upper := (run cfg fuel).avgLeadTime } ∧
    (run cfg fuel).costCI =
      { mean := (run cfg fuel).avgDegradationCostPerPart,
        lower := (run cfg fuel).avgDegradationCostPerPart,
        upper := (run cfg fuel).avgDegradationCostPerPart } := by
  have hrun : run cfg fuel = runSingleSimulation cfg fuel := by
    unfold run replicationResults
    have hr1 : List.range 1 = [0] := rfl
    rw [h, show (max 1 (1:ℤ)).toNat = 1 from rfl]
    simp only [hr1, List.map_cons, List.map_nil, aggregateResults_single]
    have heq : ({ cfg with replications := 1, seed := cfg.seed + 0 } : SimulationConfig) =
        cfg := by
      cases cfg
      simp_all
    rw [heq]
  refine ⟨hrun, ?_, ?_⟩ <;> rw [hrun] <;> rfl

/-- Witness for C8 on the default single-replication configuration. -/
theorem c8_single_replication_identity_witness :
    cfgA.replications = 1 ∧
    (run cfgA 4 = runSingleSimulation cfgA 4 ∧
     (run cfgA 4).leadTimeCI =
       { mean := (run cfgA 4).avgLeadTime, lower := (run cfgA 4).avgLeadTime,
         upper := (run cfgA 4).avgLeadTime } ∧
     (run cfgA 4).costCI =
       { mean := (run cfgA 4).avgDegradationCostPerPart,
         lower := (run cfgA 4).avgDegradationCostPerPart,
         upper := (run cfgA 4).avgDegradationCostPerPart }) :=
  ⟨rfl, c8_single_replication_identity cfgA 4 rfl⟩

/-- C10: a zero or negative replication count is clamped to one replication; `run`
does not fail and returns exactly what a `replications = 1` configuration returns. -/
theorem c10_nonpositive_replications_clamped (cfg : SimulationConfig) (fuel : ℕ)
    (h : cfg.replications ≤ 0) :
    run cfg fuel = run { cfg with replications := 1 } fuel ∧
    run cfg fuel = runSingleSimulation cfg fuel := by
  have hmax : (max 1 cfg.replications).toNat = 1 := by omega
  have hrun : run cfg fuel = runSingleSimulation cfg fuel := by
    unfold run replicationResults
    have hr1 : List.range 1 = [0] := rfl
    rw [hmax]
    simp only [hr1, List.map_cons, List.map_nil, aggregateResults_single]
    have : ({ cfg with seed := cfg.seed + 0 } : SimulationConfig) = cfg := by
      cases cfg
      simp
    rw [this]
  refine ⟨?_, hrun⟩
  rw [hrun]
  have h1 : run { cfg with replications := 1 } fuel =
      runSingleSimulation { cfg with replications := 1 } fuel := by
    unfold run replicationResults
    have hr1 : List.range 1 = [0] := rfl
    have : ({ cfg with replications := 1, seed := cfg.seed + 0 } : SimulationConfig) =
        { cfg with replications := 1 } := by
      cases cfg
      simp
    rw [show (max 1 (1:ℤ)).toNat = 1 from rfl]
    simp only [hr1, List.map_cons, List.map_nil, aggregateResults_single]
    exact congrArg (fun c => runSingleSimulation c fuel) this
  rw [h1]
  exact (runSingle_erase_repl cfg 1 fuel).symm

/-- Witness for C10 with a negative replication count. -/
theorem c10_nonpositive_replications_clamped_witness :
    cfgC.replications ≤ 0 ∧
    (run cfgC 4 = run { cfgC with replications := 1 } 4 ∧
     run cfgC 4 = runSingleSimulation cfgC 4) :=
  ⟨by decide, c10_nonpositive_replications_clamped cfgC 4 (by decide)⟩

end JobShop
